import Mathlib

/-!
Verification of the OneManRave framed serial protocol and audio-feature
pipeline.

The encoder side is `src/teensy_fft/src/main.cpp` (`Proto::crc16_ccitt`,
`Proto::encodeFrame`, `sendFftFrame`, `sendAuxFrame`, `forwardESP32Commands`,
`calculateChroma`, `calculateVocalEnvelope`) and the decoder side is
`src/teensy_led/src/main.cpp` (`processSerialData`, `resyncFromBuffer`).

Modelling conventions:
* serial bytes are `Nat` values; `uint8` storage is reflected by `< 256`
  hypotheses where a theorem needs them, and 16-bit arithmetic carries an
  explicit `% 65536`;
* `millis()` timestamps are `Nat` (the firmware's `unsigned long` clock is
  monotone within a session, so the unsigned subtractions agree with
  truncated `Nat` subtraction);
* `float` quantities of the DSP stages are modelled as exact rationals `ℚ`;
  the claims about them concern threshold comparisons and control flow, not
  rounding.
-/

namespace OneManRave

/-! ## Protocol constants (`namespace Proto` in both firmwares) -/

def SOF : Nat := 0xAA

def EOF_BYTE : Nat := 0xBB

def TYPE_FFT : Nat := 0x01

def TYPE_CMD : Nat := 0x02

def TYPE_AUX : Nat := 0x03

/-- `Proto::FIXED_PAYLOAD_LEN` (= `Proto::PAYLOAD_LEN` on the encoder side). -/
def FIXED_PAYLOAD_LEN : Nat := 68

def AUX_PAYLOAD_LEN : Nat := 36

def MAX_FRAME_SIZE : Nat := 80

/-! ## CRC16-CCITT as written in `Proto::crc16_ccitt` (both firmwares contain
the identical function) -/

/-- One iteration of the inner `for (b = 0; b < 8; ...)` loop:
`crc = (crc & 0x8000) ? (crc << 1) ^ 0x1021 : (crc << 1);` on a `uint16_t`. -/
def crcStep (crc : Nat) : Nat :=
  if crc.testBit 15 then ((crc * 2) ^^^ 0x1021) % 65536 else (crc * 2) % 65536

/-- `k` iterations of `crcStep`, first iteration applied first. -/
def crcSteps : Nat → Nat → Nat
  | 0, c => c
  | k + 1, c => crcSteps k (crcStep c)

/-- Per-byte update: `crc ^= ((uint16_t)data[i]) << 8;` followed by eight
`crcStep`s.  The `% 256` mirrors the `uint8_t` type of `data[i]`. -/
def crcByte (crc b : Nat) : Nat :=
  crcSteps 8 (crc ^^^ ((b % 256) * 256))

/-- `Proto::crc16_ccitt`: initial value `0xFFFF`, bytes processed in order,
no final XOR. -/
def crc16_ccitt (data : List Nat) : Nat :=
  data.foldl crcByte 0xFFFF

/-! ## Frame encoder (`Proto::encodeFrame`, teensy_fft)

The C function receives `payload` together with its length and copies exactly
that many bytes; the list model carries its own length.  All call sites pass
a buffer of exactly the advertised capacity, so the `outCap < needed` early
`false` return never fires and is not modelled. -/

def encodeFrame (ftype seq : Nat) (payload : List Nat) : List Nat :=
  let crc := crc16_ccitt ([ftype, seq, payload.length] ++ payload)
  SOF :: ftype :: seq :: payload.length ::
    (payload ++ [crc % 256, crc / 256, EOF_BYTE])

/-! ## Frame decoder (`processSerialData` / `resyncFromBuffer`, teensy_led) -/

/-- Scan of `resyncFromBuffer`, already past position 0: keep the tail from
the first byte equal to `SOF`, or nothing if there is none. -/
def resyncScan : List Nat → List Nat
  | [] => []
  | b :: rest => if b = SOF then b :: rest else resyncScan rest

/-- `resyncFromBuffer`: look for a `SOF` at positions `1..rxIndex-1`; on a hit
`memmove` the buffer left so that byte becomes position 0, otherwise clear. -/
def resyncFromBuffer (buf : List Nat) : List Nat :=
  match buf with
  | [] => []
  | _ :: rest => resyncScan rest

/-- The `lenOk` computation of `processSerialData`. -/
def lenOkCheck (frameType payloadLen : Nat) : Bool :=
  if frameType = TYPE_FFT ∨ frameType = TYPE_CMD then
    payloadLen = FIXED_PAYLOAD_LEN
  else if frameType = TYPE_AUX then
    payloadLen = AUX_PAYLOAD_LEN
  else
    false

/-- A frame dispatched to the consumer (one of the three `frameType` branches
that copy the payload into the feature snapshot / apply the command). -/
structure Dispatch where
  ftype : Nat
  seq : Nat
  payload : List Nat
deriving DecidableEq, Repr

/-- Decoder state: `rxBuffer[0..rxIndex-1]`, the `crcErrors` diagnostic
counter and the `lastByteMs` timestamp. -/
structure DecState where
  buf : List Nat
  crcErrors : Nat
  lastByteMs : Nat
deriving DecidableEq, Repr

/-- Body of the `while (Serial1.available())` loop of `processSerialData` for
a single received byte `b` at time `nowMs`. -/
def processByte (s : DecState) (b nowMs : Nat) : DecState × Option Dispatch :=
  let s := { s with lastByteMs := nowMs }
  if s.buf.isEmpty then
    if b = SOF then ({ s with buf := [b] }, none) else (s, none)
  else
    let buf := s.buf ++ [b]
    if buf.length < 4 then
      ({ s with buf := buf }, none)
    else
      let payloadLen := buf.getD 3 0
      let expectedFrameSize := 4 + payloadLen + 3
      let frameType := buf.getD 1 0
      if expectedFrameSize > MAX_FRAME_SIZE ∨ lenOkCheck frameType payloadLen = false then
        ({ s with buf := resyncFromBuffer buf }, none)
      else if buf.length < expectedFrameSize then
        ({ s with buf := buf }, none)
      else
        let payload := (buf.drop 4).take payloadLen
        if buf.getD (expectedFrameSize - 1) 0 ≠ EOF_BYTE then
          ({ s with buf := resyncFromBuffer buf }, none)
        else
          let rxCrc := buf.getD (4 + payloadLen) 0 ||| (buf.getD (5 + payloadLen) 0 <<< 8)
          let calcCrc := crc16_ccitt ((buf.drop 1).take (3 + payloadLen))
          if rxCrc ≠ calcCrc then
            ({ s with buf := resyncFromBuffer buf, crcErrors := s.crcErrors + 1 }, none)
          else
            let d :=
              if (frameType = TYPE_FFT ∧ payloadLen = FIXED_PAYLOAD_LEN)
                  ∨ (frameType = TYPE_CMD ∧ payloadLen = FIXED_PAYLOAD_LEN)
                  ∨ (frameType = TYPE_AUX ∧ payloadLen = AUX_PAYLOAD_LEN) then
                some ⟨frameType, buf.getD 2 0, payload⟩
              else
                none
            ({ s with buf := [] }, d)

/-- The full receive loop over the bytes available in one invocation, all
time-stamped `nowMs`. -/
def processBytes : DecState → Nat → List Nat → DecState × List Dispatch
  | s, _, [] => (s, [])
  | s, nowMs, b :: rest =>
    let r := processByte s b nowMs
    let rs := processBytes r.1 nowMs rest
    (rs.1, r.2.toList ++ rs.2)

theorem processBytes_nil (s : DecState) (now : Nat) : processBytes s now [] = (s, []) := rfl

theorem processBytes_cons (s : DecState) (b now : Nat) (rest : List Nat) :
    processBytes s now (b :: rest)
      = ((processBytes (processByte s b now).1 now rest).1,
         (processByte s b now).2.toList ++ (processBytes (processByte s b now).1 now rest).2) :=
  rfl

/-- One invocation of `processSerialData`: the stale-buffer timeout check
(`rxIndex > 0 && (nowMs - lastByteMs) > 10`) followed by the receive loop. -/
def processSerialData (s : DecState) (nowMs : Nat) (input : List Nat) :
    DecState × List Dispatch :=
  let s := if 0 < s.buf.length ∧ nowMs - s.lastByteMs > 10 then { s with buf := [] } else s
  processBytes s nowMs input

/-! ## Spec-level CRC16-CCITT

Modelled from the spec's words: "CRC16-CCITT (polynomial 0x1021, initial value
0xFFFF, MSB-first, no final XOR)" — the textbook bit-serial shift register:
for each message bit, taken most-significant first within each byte, compare
it with the register's bit 15, shift the register left one place (mod 2^16),
and XOR in the polynomial when the comparison differed.  `crc16_msbfirst`
is compared against the code's byte-at-a-time `crc16_ccitt` below. -/

/-- One shift-register step for a single message bit. -/
def crcSpecBitStep (c : Nat) (bit : Bool) : Nat :=
  ((c * 2) % 65536) ^^^ (if c.testBit 15 ≠ bit then 0x1021 else 0)

/-- Process bits `k-1, k-2, …, 0` of byte `b` (so `k = 8` runs MSB-first
through the whole byte). -/
def crcSpecBits (b : Nat) : Nat → Nat → Nat
  | 0, c => c
  | k + 1, c => crcSpecBits b k (crcSpecBitStep c (b.testBit k))

/-- Spec-level per-byte update: the byte's eight bits, MSB first. -/
def crcSpecByte (c b : Nat) : Nat :=
  crcSpecBits (b % 256) 8 c

/-- Spec-level CRC over a byte sequence: init `0xFFFF`, no final XOR. -/
def crc16_msbfirst (data : List Nat) : Nat :=
  data.foldl crcSpecByte 0xFFFF

/-! ### Arithmetic helpers -/

theorem sixtyFiveKibi_eq : (65536 : Nat) = 2 ^ 16 := by norm_num

theorem xor_mul_two (a b : Nat) : (a ^^^ b) * 2 = a * 2 ^^^ b * 2 := by
  have h : ∀ x : Nat, x * 2 = x <<< 1 := fun x => by
    rw [Nat.shiftLeft_eq]
  rw [h, h, h]
  apply Nat.eq_of_testBit_eq
  intro i
  simp only [Nat.testBit_shiftLeft, Nat.testBit_xor]
  cases h1 : decide (i ≥ 1) <;> simp

theorem xor_mod_two_pow (a b n : Nat) :
    (a ^^^ b) % 2 ^ n = a % 2 ^ n ^^^ b % 2 ^ n := by
  apply Nat.eq_of_testBit_eq
  intro i
  simp only [Nat.testBit_mod_two_pow, Nat.testBit_xor]
  cases h1 : decide (i < n) <;> simp

theorem xor_rot (a b c : Nat) : a ^^^ b ^^^ c = a ^^^ c ^^^ b := by
  rw [Nat.xor_assoc, Nat.xor_assoc, Nat.xor_comm b c]

/-- `crcStep` in xor-normal form. -/
theorem crcStep_eq (x : Nat) :
    crcStep x = (x * 2) % 65536 ^^^ (if x.testBit 15 then 0x1021 else 0) := by
  unfold crcStep
  by_cases h : x.testBit 15
  · rw [if_pos h, if_pos h, sixtyFiveKibi_eq, xor_mod_two_pow]
    norm_num
  · simp [h]

theorem crcStep_lt (x : Nat) : crcStep x < 65536 := by
  rw [crcStep_eq, sixtyFiveKibi_eq]
  apply Nat.xor_lt_two_pow
  · exact Nat.mod_lt _ (by norm_num)
  · by_cases h : x.testBit 15 <;> simp [h]

theorem crcSpecBitStep_lt (c : Nat) (bit : Bool) : crcSpecBitStep c bit < 65536 := by
  rw [crcSpecBitStep, sixtyFiveKibi_eq]
  apply Nat.xor_lt_two_pow
  · exact Nat.mod_lt _ (by norm_num)
  · by_cases h : c.testBit 15 ≠ bit <;> simp [h]

theorem crcSteps_lt (k c : Nat) (hk : 1 ≤ k) : crcSteps k c < 65536 := by
  induction k generalizing c with
  | zero => omega
  | succ k ih =>
    rcases Nat.eq_or_lt_of_le hk with h | h
    · cases h
      exact crcStep_lt c
    · exact ih (crcStep c) (by omega)

theorem crcByte_lt (c b : Nat) : crcByte c b < 65536 := by
  unfold crcByte
  exact crcSteps_lt 8 _ (by norm_num)

theorem crc16_ccitt_lt (data : List Nat) : crc16_ccitt data < 65536 := by
  unfold crc16_ccitt
  induction data using List.reverseRecOn with
  | nil => norm_num
  | append_singleton xs x _ =>
    rw [List.foldl_append]
    exact crcByte_lt _ _

/-! ### The code's byte-at-a-time loop equals the MSB-first bit-serial spec -/

/-- Invariant of the inner loop: after `8 - k` iterations the code's register
equals the spec register for the bits already consumed, XOR the not-yet
consumed data bits parked in the top of the register. -/
theorem crcSteps_eq_specBits (b : Nat) :
    ∀ k, k ≤ 8 → ∀ c, crcSteps k (c ^^^ (b <<< (16 - k)) % 65536) = crcSpecBits b k c := by
  intro k
  induction k with
  | zero =>
    intro _ c
    have h0 : (b <<< 16) % 65536 = 0 := by
      rw [Nat.shiftLeft_eq, sixtyFiveKibi_eq]
      simp [Nat.mul_mod_left]
    simp [crcSteps, crcSpecBits, h0]
  | succ k ih =>
    intro hk c
    have hk7 : k ≤ 7 := by omega
    have h15 : 16 - (k + 1) = 15 - k := by omega
    have h16 : 16 - k = (15 - k) + 1 := by omega
    set m : Nat := (b <<< (15 - k)) % 65536 with hm
    have hmbit : m.testBit 15 = b.testBit k := by
      rw [hm, sixtyFiveKibi_eq]
      simp only [Nat.testBit_mod_two_pow, Nat.testBit_shiftLeft]
      have h1 : (15 : Nat) < 16 := by norm_num
      have h2 : 15 - k ≤ 15 := by omega
      have h3 : 15 - (15 - k) = k := by omega
      simp [h1, h2, h3]
    have hshift : (m * 2) % 65536 = (b <<< (16 - k)) % 65536 := by
      rw [hm, Nat.mod_mul_mod, h16, Nat.shiftLeft_succ]
      ring_nf
    have hstep : crcStep (c ^^^ m) =
        crcSpecBitStep c (b.testBit k) ^^^ (b <<< (16 - k)) % 65536 := by
      rw [crcStep_eq, crcSpecBitStep]
      have hx2 : ((c ^^^ m) * 2) % 65536 = (c * 2) % 65536 ^^^ (m * 2) % 65536 := by
        rw [xor_mul_two, sixtyFiveKibi_eq, xor_mod_two_pow]
      have hxbit : (c ^^^ m).testBit 15 = ((c.testBit 15).xor (b.testBit k)) := by
        rw [Nat.testBit_xor, hmbit]
      rw [hx2, hxbit, hshift]
      cases hc : c.testBit 15 <;> cases hb : b.testBit k <;>
        simp only [Bool.xor_false, Bool.xor_true, Bool.not_true, Bool.not_false,
          if_true, if_false, ne_eq, not_true_eq_false, not_false_eq_true,
          reduceIte, Bool.true_eq_false, Bool.false_eq_true] <;>
      first
        | rw [Nat.xor_zero, Nat.xor_zero]
        | rw [xor_rot]
    rw [crcSpecBits, ← ih (by omega) (crcSpecBitStep c (b.testBit k))]
    show crcSteps k (crcStep (c ^^^ (b <<< (16 - (k+1))) % 65536)) = _
    rw [h15, ← hm, hstep]

/-- Per byte, the code's update and the spec's MSB-first update agree. -/
theorem crcByte_eq_crcSpecByte (c b : Nat) : crcByte c b = crcSpecByte c b := by
  have hb : b % 256 < 256 := Nat.mod_lt _ (by norm_num)
  have hmod : ((b % 256) <<< (16 - 8)) % 65536 = (b % 256) * 256 := by
    rw [Nat.shiftLeft_eq]
    have h1 : (16 : Nat) - 8 = 8 := by norm_num
    have h2 : (2 : Nat) ^ 8 = 256 := by norm_num
    rw [h1, h2]
    exact Nat.mod_eq_of_lt (by omega)
  unfold crcByte crcSpecByte
  rw [← crcSteps_eq_specBits (b % 256) 8 (le_refl 8) c, hmod]

/-- **C2 core**: the code's `Proto::crc16_ccitt` computes exactly the
MSB-first CRC16-CCITT with polynomial `0x1021`, init `0xFFFF`, no final XOR. -/
theorem crc16_ccitt_eq_msbfirst (data : List Nat) :
    crc16_ccitt data = crc16_msbfirst data := by
  unfold crc16_ccitt crc16_msbfirst
  induction data using List.reverseRecOn with
  | nil => rfl
  | append_singleton xs x ih =>
    rw [List.foldl_append, List.foldl_append, ih, List.foldl_cons, List.foldl_nil,
      List.foldl_cons, List.foldl_nil, crcByte_eq_crcSpecByte]

/-! ## Frame structure and the encode→decode round trip -/

/-- The (type, declared length) pairs the decoder accepts — exactly the
fixed-length payload definitions of the protocol. -/
def validTypeLen (t len : Nat) : Prop :=
  (t = TYPE_FFT ∨ t = TYPE_CMD) ∧ len = FIXED_PAYLOAD_LEN
    ∨ t = TYPE_AUX ∧ len = AUX_PAYLOAD_LEN

instance (t len : Nat) : Decidable (validTypeLen t len) := by
  unfold validTypeLen
  infer_instance

theorem lenOkCheck_iff (t len : Nat) : lenOkCheck t len = true ↔ validTypeLen t len := by
  unfold lenOkCheck validTypeLen
  by_cases h1 : t = TYPE_FFT ∨ t = TYPE_CMD
  · simp only [if_pos h1, decide_eq_true_eq]
    constructor
    · exact fun h => Or.inl ⟨h1, h⟩
    · rintro (⟨_, h⟩ | ⟨h2, _⟩)
      · exact h
      · rcases h1 with h1 | h1 <;> simp [TYPE_FFT, TYPE_CMD, TYPE_AUX] at h1 h2 <;> omega
  · rw [if_neg h1]
    by_cases h2 : t = TYPE_AUX
    · simp only [if_pos h2, decide_eq_true_eq]
      constructor
      · exact fun h => Or.inr ⟨h2, h⟩
      · rintro (⟨h3, _⟩ | ⟨_, h⟩)
        · exact absurd h3 h1
        · exact h
    · simp only [if_neg h2, Bool.false_eq_true, false_iff]
      rintro (⟨h3, _⟩ | ⟨h3, _⟩)
      · exact h1 h3
      · exact h2 h3

theorem validTypeLen_frameSize (t len : Nat) (h : validTypeLen t len) :
    ¬ 4 + len + 3 > MAX_FRAME_SIZE := by
  rcases h with ⟨_, h⟩ | ⟨_, h⟩ <;> rw [h] <;> norm_num [FIXED_PAYLOAD_LEN, AUX_PAYLOAD_LEN, MAX_FRAME_SIZE]

/-! ### Indexing helpers -/

theorem getD_take_of_lt (l : List Nat) {n m : Nat} (h : m < n) :
    (l.take n).getD m 0 = l.getD m 0 := by
  simp [List.getD_eq_getElem?_getD, List.getElem?_take_of_lt h]

theorem getD_append_self (l₁ l₂ : List Nat) (i : Nat) :
    (l₁ ++ l₂).getD (l₁.length + i) 0 = l₂.getD i 0 := by
  rw [List.getD_eq_getElem?_getD, List.getD_eq_getElem?_getD,
    List.getElem?_append_right (Nat.le_add_right _ _), Nat.add_sub_cancel_left]

theorem getD_drop (l : List Nat) (n i : Nat) :
    (l.drop n).getD i 0 = l.getD (n + i) 0 := by
  simp [List.getD_eq_getElem?_getD, List.getElem?_drop]

theorem isEmpty_false_of_length_pos {l : List Nat} (h : 0 < l.length) :
    l.isEmpty = false := by
  cases l with
  | nil => simp at h
  | cons a l => rfl

theorem take_append_getD {l : List Nat} {k : Nat} (h : k < l.length) :
    l.take k ++ [l.getD k 0] = l.take (k + 1) := by
  rw [List.take_succ, List.getElem?_eq_getElem h]
  simp [List.getD_eq_getElem?_getD, List.getElem?_eq_getElem h]

theorem encodeFrame_length (t s : Nat) (p : List Nat) :
    (encodeFrame t s p).length = p.length + 7 := by
  simp [encodeFrame]

theorem encodeFrame_getD_one (t s : Nat) (p : List Nat) :
    (encodeFrame t s p).getD 1 0 = t := rfl

theorem encodeFrame_getD_two (t s : Nat) (p : List Nat) :
    (encodeFrame t s p).getD 2 0 = s := rfl

theorem encodeFrame_getD_three (t s : Nat) (p : List Nat) :
    (encodeFrame t s p).getD 3 0 = p.length := rfl

theorem encodeFrame_drop_one (t s : Nat) (p : List Nat) :
    (encodeFrame t s p).drop 1 =
      t :: s :: p.length :: (p ++ [crc16_ccitt ([t, s, p.length] ++ p) % 256,
        crc16_ccitt ([t, s, p.length] ++ p) / 256, EOF_BYTE]) := rfl

theorem encodeFrame_drop_four (t s : Nat) (p : List Nat) :
    (encodeFrame t s p).drop 4 =
      p ++ [crc16_ccitt ([t, s, p.length] ++ p) % 256,
        crc16_ccitt ([t, s, p.length] ++ p) / 256, EOF_BYTE] := rfl

theorem encodeFrame_getD_tail (t s : Nat) (p : List Nat) (i : Nat) :
    (encodeFrame t s p).getD (4 + p.length + i) 0 =
      [crc16_ccitt ([t, s, p.length] ++ p) % 256,
       crc16_ccitt ([t, s, p.length] ++ p) / 256, EOF_BYTE].getD i 0 := by
  have h4 : 4 + p.length + i = 4 + (p.length + i) := by omega
  rw [h4, ← getD_drop, encodeFrame_drop_four, getD_append_self]

/-! ### Accumulating a well-formed frame -/

/-- While a well-formed frame is still incomplete, each further byte is
appended to the buffer with no dispatch and no resync. -/
theorem frame_step (t s : Nat) (p : List Nat) (hv : validTypeLen t p.length)
    (k : Nat) (hk1 : 1 ≤ k) (hk2 : k < (encodeFrame t s p).length - 1)
    (e l now : Nat) :
    processByte ⟨(encodeFrame t s p).take k, e, l⟩ ((encodeFrame t s p).getD k 0) now
      = (⟨(encodeFrame t s p).take (k + 1), e, now⟩, none) := by
  have hlen : (encodeFrame t s p).length = p.length + 7 := encodeFrame_length t s p
  have hklt : k < (encodeFrame t s p).length := by omega
  have htake_len : ((encodeFrame t s p).take k).length = k := by
    rw [List.length_take]
    omega
  have hne : ((encodeFrame t s p).take k).isEmpty = false :=
    isEmpty_false_of_length_pos (by omega)
  have happ : (encodeFrame t s p).take k ++ [(encodeFrame t s p).getD k 0]
      = (encodeFrame t s p).take (k + 1) := take_append_getD hklt
  have htake1_len : ((encodeFrame t s p).take (k + 1)).length = k + 1 := by
    rw [List.length_take]
    omega
  rcases Nat.lt_or_ge (k + 1) 4 with h4 | h4
  · unfold processByte
    simp only [hne, Bool.false_eq_true, if_false, happ, htake1_len]
    rw [if_pos h4]
  · have hg3 : ((encodeFrame t s p).take (k + 1)).getD 3 0 = p.length := by
      rw [getD_take_of_lt _ (by omega), encodeFrame_getD_three]
    have hg1 : ((encodeFrame t s p).take (k + 1)).getD 1 0 = t := by
      rw [getD_take_of_lt _ (by omega), encodeFrame_getD_one]
    have hlenOk : lenOkCheck t p.length = true := (lenOkCheck_iff t p.length).mpr hv
    unfold processByte
    simp only [hne, Bool.false_eq_true, if_false, happ, htake1_len, hg3, hg1]
    rw [if_neg (by omega), if_neg (by
      rw [hlenOk]
      push_neg
      have := validTypeLen_frameSize t p.length hv
      exact ⟨by omega, by simp⟩)]
    rw [if_pos (by omega)]

/-- The closing byte of a well-formed frame: EOF matches, the received CRC
equals the recomputed one, and the payload is dispatched. -/
theorem frame_last (t s : Nat) (p : List Nat) (hv : validTypeLen t p.length)
    (e l now : Nat) :
    processByte ⟨(encodeFrame t s p).take ((encodeFrame t s p).length - 1), e, l⟩
        ((encodeFrame t s p).getD ((encodeFrame t s p).length - 1) 0) now
      = (⟨[], e, now⟩, some ⟨t, s, p⟩) := by
  have hlen : (encodeFrame t s p).length = p.length + 7 := encodeFrame_length t s p
  set k : Nat := (encodeFrame t s p).length - 1 with hk
  have hklt : k < (encodeFrame t s p).length := by omega
  have hne : ((encodeFrame t s p).take k).isEmpty = false := by
    apply isEmpty_false_of_length_pos
    rw [List.length_take]
    omega
  have happ : (encodeFrame t s p).take k ++ [(encodeFrame t s p).getD k 0]
      = (encodeFrame t s p).take (k + 1) := take_append_getD hklt
  have htake_all : (encodeFrame t s p).take (k + 1) = encodeFrame t s p := by
    apply List.take_of_length_le
    omega
  have hg3 : (encodeFrame t s p).getD 3 0 = p.length := encodeFrame_getD_three t s p
  have hg1 : (encodeFrame t s p).getD 1 0 = t := encodeFrame_getD_one t s p
  have hg2 : (encodeFrame t s p).getD 2 0 = s := encodeFrame_getD_two t s p
  have hlenOk : lenOkCheck t p.length = true := (lenOkCheck_iff t p.length).mpr hv
  have hcrc_lt : crc16_ccitt ([t, s, p.length] ++ p) < 65536 := crc16_ccitt_lt _
  have heof : (encodeFrame t s p).getD (4 + p.length + 3 - 1) 0 = EOF_BYTE := by
    have h1 : 4 + p.length + 3 - 1 = 4 + p.length + 2 := by omega
    rw [h1, encodeFrame_getD_tail]
    rfl
  have hlo : (encodeFrame t s p).getD (4 + p.length) 0
      = crc16_ccitt ([t, s, p.length] ++ p) % 256 := by
    have h1 : 4 + p.length = 4 + p.length + 0 := by omega
    rw [h1, encodeFrame_getD_tail]
    rfl
  have hhi : (encodeFrame t s p).getD (5 + p.length) 0
      = crc16_ccitt ([t, s, p.length] ++ p) / 256 := by
    have h1 : 5 + p.length = 4 + p.length + 1 := by omega
    rw [h1, encodeFrame_getD_tail]
    rfl
  have hcrc_join : crc16_ccitt ([t, s, p.length] ++ p) % 256
      ||| ((crc16_ccitt ([t, s, p.length] ++ p) / 256) <<< 8)
      = crc16_ccitt ([t, s, p.length] ++ p) := by
    set c : Nat := crc16_ccitt ([t, s, p.length] ++ p) with hc
    have hmod : c % 256 < 2 ^ 8 := by
      have := Nat.mod_lt c (show 0 < 256 by norm_num)
      omega
    rw [Nat.shiftLeft_eq, Nat.lor_comm, Nat.mul_comm (c / 256) (2 ^ 8),
      ← Nat.mul_add_lt_is_or hmod (c / 256)]
    simpa using Nat.div_add_mod c 256
  have hslice : ((encodeFrame t s p).drop 1).take (3 + p.length) = [t, s, p.length] ++ p := by
    rw [encodeFrame_drop_one]
    show ([t, s, p.length] ++ (p ++ _)).take (3 + p.length) = _
    rw [← List.append_assoc]
    apply List.take_left'
    simp only [List.length_append, List.length_cons, List.length_nil]
  have hpay : ((encodeFrame t s p).drop 4).take p.length = p := by
    rw [encodeFrame_drop_four]
    exact List.take_left' rfl
  unfold processByte
  simp only [hne, Bool.false_eq_true, if_false, happ, htake_all, hg3, hg1, hg2,
    List.length_take]
  rw [if_neg (by omega), if_neg (by
    rw [hlenOk]
    push_neg
    have := validTypeLen_frameSize t p.length hv
    exact ⟨by omega, by simp⟩)]
  rw [if_neg (by omega)]
  rw [if_neg (by
    rw [heof]
    simp)]
  rw [hlo, hhi, hcrc_join, hslice, hpay]
  rw [if_neg (by simp)]
  rw [if_pos (by
    rcases hv with ⟨ht, hl⟩ | ⟨ht, hl⟩
    · rcases ht with ht | ht
      · exact Or.inl ⟨ht, hl⟩
      · exact Or.inr (Or.inl ⟨ht, hl⟩)
    · exact Or.inr (Or.inr ⟨ht, hl⟩))]

/-- Feeding the rest of a well-formed frame from any proper prefix of it
dispatches exactly that frame's payload and leaves an empty buffer. -/
theorem frame_run (t s : Nat) (p : List Nat) (hv : validTypeLen t p.length) :
    ∀ n k, k + n = (encodeFrame t s p).length - 1 → 1 ≤ k → ∀ e l now,
      processBytes ⟨(encodeFrame t s p).take k, e, l⟩ now ((encodeFrame t s p).drop k)
        = (⟨[], e, now⟩, [⟨t, s, p⟩]) := by
  have hlen : (encodeFrame t s p).length = p.length + 7 := encodeFrame_length t s p
  intro n
  induction n with
  | zero =>
    intro k hk hk1 e l now
    have hklt : k < (encodeFrame t s p).length := by omega
    have hdrop : (encodeFrame t s p).drop k
        = (encodeFrame t s p).getD k 0 :: (encodeFrame t s p).drop (k + 1) := by
      rw [List.drop_eq_getElem_cons hklt]
      congr 1
      simp [List.getD_eq_getElem?_getD, List.getElem?_eq_getElem hklt]
    have hdrop1 : (encodeFrame t s p).drop (k + 1) = [] := by
      rw [List.drop_eq_nil_iff]
      omega
    have hkeq : k = (encodeFrame t s p).length - 1 := by omega
    rw [hdrop, hdrop1, processBytes_cons, hkeq, frame_last t s p hv e l now]
    rfl
  | succ n ih =>
    intro k hk hk1 e l now
    have hklt : k < (encodeFrame t s p).length - 1 := by omega
    have hdrop : (encodeFrame t s p).drop k
        = (encodeFrame t s p).getD k 0 :: (encodeFrame t s p).drop (k + 1) := by
      rw [List.drop_eq_getElem_cons (by omega)]
      congr 1
      simp [List.getD_eq_getElem?_getD, List.getElem?_eq_getElem (show k < (encodeFrame t s p).length by omega)]
    rw [hdrop, processBytes_cons, frame_step t s p hv k hk1 hklt e l now,
      ih (k + 1) (by omega) (by omega) e now now]
    rfl

theorem getD_cons_add_four (a b c d : Nat) (x : List Nat) (i : Nat) :
    (a :: b :: c :: d :: x).getD (4 + i) 0 = x.getD i 0 := by
  have h : 4 + i = i + 1 + 1 + 1 + 1 := by omega
  rw [h, List.getD_cons_succ, List.getD_cons_succ, List.getD_cons_succ,
    List.getD_cons_succ]

/-- Closing byte of a frame-shaped buffer carrying arbitrary CRC bytes
`lo`,`hi`: the decoder dispatches the payload exactly when the received CRC,
read low byte first, equals `crc16_ccitt` of `type‖seq‖len‖payload`; on a
mismatch it resyncs and increments the `crcErrors` counter. -/
theorem frame_last_gen (t s lo hi : Nat) (p : List Nat)
    (hv : validTypeLen t p.length) (hlo : lo < 256) (e l now : Nat) :
    processByte ⟨SOF :: t :: s :: p.length :: (p ++ [lo, hi]), e, l⟩ EOF_BYTE now
      = if lo + 256 * hi = crc16_ccitt ([t, s, p.length] ++ p)
        then (⟨[], e, now⟩, some ⟨t, s, p⟩)
        else (⟨resyncFromBuffer
            (SOF :: t :: s :: p.length :: (p ++ [lo, hi, EOF_BYTE])), e + 1, now⟩,
          none) := by
  have hbuf : (SOF :: t :: s :: p.length :: (p ++ [lo, hi])) ++ [EOF_BYTE]
      = SOF :: t :: s :: p.length :: (p ++ [lo, hi, EOF_BYTE]) := by
    simp
  have hlen' : (SOF :: t :: s :: p.length :: (p ++ [lo, hi, EOF_BYTE])).length
      = p.length + 7 := by
    simp
  have hlenOk : lenOkCheck t p.length = true := (lenOkCheck_iff t p.length).mpr hv
  have hg3 : (SOF :: t :: s :: p.length :: (p ++ [lo, hi, EOF_BYTE])).getD 3 0
      = p.length := by
    simp [List.getD_cons_succ, List.getD_cons_zero]
  have hg1 : (SOF :: t :: s :: p.length :: (p ++ [lo, hi, EOF_BYTE])).getD 1 0 = t := by
    simp [List.getD_cons_succ, List.getD_cons_zero]
  have hg2 : (SOF :: t :: s :: p.length :: (p ++ [lo, hi, EOF_BYTE])).getD 2 0 = s := by
    simp [List.getD_cons_succ, List.getD_cons_zero]
  have heof : (SOF :: t :: s :: p.length :: (p ++ [lo, hi, EOF_BYTE])).getD
      (4 + p.length + 3 - 1) 0 = EOF_BYTE := by
    have h1 : 4 + p.length + 3 - 1 = 4 + (p.length + 2) := by omega
    rw [h1, getD_cons_add_four, getD_append_self p [lo, hi, EOF_BYTE] 2]
    rfl
  have hlo' : (SOF :: t :: s :: p.length :: (p ++ [lo, hi, EOF_BYTE])).getD
      (4 + p.length) 0 = lo := by
    have h1 : 4 + p.length = 4 + (p.length + 0) := by omega
    rw [h1, getD_cons_add_four, getD_append_self p [lo, hi, EOF_BYTE] 0]
    rfl
  have hhi' : (SOF :: t :: s :: p.length :: (p ++ [lo, hi, EOF_BYTE])).getD
      (5 + p.length) 0 = hi := by
    have h1 : 5 + p.length = 4 + (p.length + 1) := by omega
    rw [h1, getD_cons_add_four, getD_append_self p [lo, hi, EOF_BYTE] 1]
    rfl
  have hslice : ((SOF :: t :: s :: p.length :: (p ++ [lo, hi, EOF_BYTE])).drop 1).take
      (3 + p.length) = [t, s, p.length] ++ p := by
    show ([t, s, p.length] ++ (p ++ [lo, hi, EOF_BYTE])).take (3 + p.length) = _
    rw [← List.append_assoc]
    apply List.take_left'
    simp only [List.length_append, List.length_cons, List.length_nil]
  have hpay : ((SOF :: t :: s :: p.length :: (p ++ [lo, hi, EOF_BYTE])).drop 4).take
      p.length = p := by
    show (p ++ [lo, hi, EOF_BYTE]).take p.length = _
    exact List.take_left' rfl
  have hrx : lo ||| (hi <<< 8) = lo + 256 * hi := by
    have hmod : lo < 2 ^ 8 := by norm_num at *; omega
    rw [Nat.shiftLeft_eq, Nat.lor_comm, Nat.mul_comm hi (2 ^ 8),
      ← Nat.mul_add_lt_is_or hmod hi]
    norm_num
    omega
  unfold processByte
  simp only [List.isEmpty_cons, Bool.false_eq_true, if_false, hbuf, hlen', hg3, hg1, hg2]
  rw [if_neg (by omega), if_neg (by
    rw [hlenOk]
    push_neg
    have := validTypeLen_frameSize t p.length hv
    exact ⟨by omega, by simp⟩)]
  rw [if_neg (by omega)]
  rw [if_neg (by
    rw [heof]
    simp)]
  rw [hlo', hhi', hrx, hslice, hpay]
  have hconv : ([t, s, p.length] ++ p : List Nat) = t :: s :: p.length :: p := rfl
  rw [hconv]
  by_cases hcrc : lo + 256 * hi = crc16_ccitt (t :: s :: p.length :: p)
  · rw [if_pos hcrc, if_neg (not_not_intro hcrc), if_pos (by
      rcases hv with ⟨ht, hl⟩ | ⟨ht, hl⟩
      · rcases ht with ht | ht
        · exact Or.inl ⟨ht, hl⟩
        · exact Or.inr (Or.inl ⟨ht, hl⟩)
      · exact Or.inr (Or.inr ⟨ht, hl⟩))]
  · rw [if_neg hcrc, if_pos hcrc]

/-! ## Claim theorems: C1, C2 -/

/-- A whole well-formed frame fed to the empty buffer dispatches exactly its
payload. -/
theorem processBytes_encodeFrame (t s : Nat) (p : List Nat)
    (hv : validTypeLen t p.length) (e l now : Nat) :
    processBytes ⟨[], e, l⟩ now (encodeFrame t s p)
      = (⟨[], e, now⟩, [⟨t, s, p⟩]) := by
  have hlen : (encodeFrame t s p).length = p.length + 7 := encodeFrame_length t s p
  have hsplit : encodeFrame t s p = SOF :: (encodeFrame t s p).drop 1 := rfl
  conv_lhs => rw [hsplit]
  have h1 : processByte ⟨[], e, l⟩ SOF now
      = (⟨(encodeFrame t s p).take 1, e, now⟩, none) := rfl
  rw [processBytes_cons, h1]
  dsimp only
  rw [frame_run t s p hv ((encodeFrame t s p).length - 2) 1 (by omega)
    (le_refl 1) e now now]
  rfl

/-- **C1**: for every payload of its type's exact fixed length (68 bytes for
FEATURE/COMMAND, 36 for AUX) and every sequence byte, feeding the bytes of
`encodeFrame` one at a time into `processSerialData`, starting from an empty
buffer, produces exactly one successful dispatch, whose payload equals the
original payload byte-for-byte. -/
theorem claim_C1_roundtrip (t s : Nat) (p : List Nat)
    (hv : validTypeLen t p.length) (_hs : s < 256) (_hp : ∀ b ∈ p, b < 256)
    (e l now : Nat) :
    processSerialData ⟨[], e, l⟩ now (encodeFrame t s p)
      = (⟨[], e, now⟩, [⟨t, s, p⟩]) := by
  unfold processSerialData
  rw [if_neg (by simp)]
  exact processBytes_encodeFrame t s p hv e l now

/-- Witness for C1 at a concrete AUX frame. -/
theorem claim_C1_roundtrip_witness :
    processSerialData ⟨[], 0, 0⟩ 5 (encodeFrame TYPE_AUX 7 (List.replicate 36 2))
      = (⟨[], 0, 5⟩, [⟨TYPE_AUX, 7, List.replicate 36 2⟩]) :=
  claim_C1_roundtrip TYPE_AUX 7 (List.replicate 36 2)
    (by right; exact ⟨rfl, by simp [AUX_PAYLOAD_LEN]⟩) (by norm_num)
    (by intro b hb; rw [List.eq_of_mem_replicate hb]; norm_num) 0 0 5

/-- **C2**: the frame checksum is CRC16-CCITT (poly 0x1021, init 0xFFFF,
MSB-first, no final XOR) over `type‖seq‖len‖payload` (the SOF byte excluded);
the encoder appends the CRC low byte, then the high byte, then EOF; and the
decoder reads the received CRC low-then-high and dispatches precisely when it
equals the same CRC function over the same bytes. -/
theorem claim_C2_crc (t s : Nat) (p : List Nat) :
    (∀ data : List Nat, crc16_ccitt data = crc16_msbfirst data)
    ∧ encodeFrame t s p
        = [SOF, t, s, p.length] ++ p
          ++ [crc16_ccitt ([t, s, p.length] ++ p) % 256,
              crc16_ccitt ([t, s, p.length] ++ p) / 256, EOF_BYTE]
    ∧ (∀ lo hi e l now : Nat, validTypeLen t p.length → lo < 256 →
        (processByte ⟨SOF :: t :: s :: p.length :: (p ++ [lo, hi]), e, l⟩
            EOF_BYTE now).2
          = if lo + 256 * hi = crc16_ccitt ([t, s, p.length] ++ p)
            then some ⟨t, s, p⟩ else none) := by
  refine ⟨crc16_ccitt_eq_msbfirst, by simp [encodeFrame], ?_⟩
  intro lo hi e l now hv hlo
  rw [frame_last_gen t s lo hi p hv hlo e l now]
  by_cases hcrc : lo + 256 * hi = crc16_ccitt ([t, s, p.length] ++ p)
  · rw [if_pos hcrc, if_pos hcrc]
  · rw [if_neg hcrc, if_neg hcrc]

/-- Witness for C2's decoder conjunct at a concrete frame. -/
theorem claim_C2_crc_witness :
    (processByte
        ⟨SOF :: TYPE_AUX :: 9 :: (List.replicate 36 1).length
          :: (List.replicate 36 1 ++ [40, 162]), 0, 0⟩ EOF_BYTE 5).2
      = if 40 + 256 * 162
            = crc16_ccitt ([TYPE_AUX, 9, (List.replicate 36 1).length]
                ++ List.replicate 36 1)
        then some ⟨TYPE_AUX, 9, List.replicate 36 1⟩ else none :=
  (claim_C2_crc TYPE_AUX 9 (List.replicate 36 1)).2.2 40 162 0 0 5
    (by right; exact ⟨rfl, by simp [AUX_PAYLOAD_LEN]⟩) (by norm_num)

/-! ## C3: the Resync procedure -/

/-- `resyncScan` keeps the tail from the first `SOF`, or clears. -/
theorem resyncScan_spec (l : List Nat) :
    (resyncScan l = [] ∧ ∀ i, i < l.length → l.getD i 0 ≠ SOF)
    ∨ (∃ i, i < l.length ∧ l.getD i 0 = SOF ∧ (∀ j, j < i → l.getD j 0 ≠ SOF)
        ∧ resyncScan l = l.drop i) := by
  induction l with
  | nil =>
    left
    exact ⟨rfl, by intro i hi; simp at hi⟩
  | cons b rest ih =>
    by_cases hb : b = SOF
    · right
      refine ⟨0, by simp, by simpa using hb, by omega, ?_⟩
      simp [resyncScan, hb]
    · rcases ih with ⟨hscan, hall⟩ | ⟨i, hi, hsof, hbefore, heq⟩
      · left
        constructor
        · simp [resyncScan, hb, hscan]
        · intro i hi
          cases i with
          | zero => simpa using hb
          | succ j =>
            rw [List.getD_cons_succ]
            exact hall j (by simpa using hi)
      · right
        refine ⟨i + 1, by simpa using hi, by simpa using hsof, ?_, ?_⟩
        · intro j hj
          cases j with
          | zero => simpa using hb
          | succ j' =>
            rw [List.getD_cons_succ]
            exact hbefore j' (by omega)
        · rw [List.drop_succ_cons]
          simpa [resyncScan, hb] using heq

/-- The Resync procedure: scan positions `1..end` of the buffer for `SOF`;
left-shift the buffer so the first hit becomes position 0, else clear. -/
theorem resyncFromBuffer_spec (buf : List Nat) :
    (resyncFromBuffer buf = [] ∧ ∀ i, 1 ≤ i → i < buf.length → buf.getD i 0 ≠ SOF)
    ∨ (∃ i, 1 ≤ i ∧ i < buf.length ∧ buf.getD i 0 = SOF
        ∧ (∀ j, 1 ≤ j → j < i → buf.getD j 0 ≠ SOF)
        ∧ resyncFromBuffer buf = buf.drop i) := by
  cases buf with
  | nil =>
    left
    exact ⟨rfl, by intro i _ hi; simp at hi⟩
  | cons a rest =>
    rcases resyncScan_spec rest with ⟨hscan, hall⟩ | ⟨i, hi, hsof, hbefore, heq⟩
    · left
      constructor
      · simpa [resyncFromBuffer] using hscan
      · intro i h1 hi
        cases i with
        | zero => omega
        | succ j =>
          rw [List.getD_cons_succ]
          exact hall j (by simpa using hi)
    · right
      refine ⟨i + 1, by omega, by simpa using hi, by simpa using hsof, ?_, ?_⟩
      · intro j h1 hj
        cases j with
        | zero => omega
        | succ j' =>
          rw [List.getD_cons_succ]
          exact hbefore j' (by omega)
      · rw [List.drop_succ_cons]
        simpa [resyncFromBuffer] using heq

/-- **C3**: each of the three validation failures — unknown (type, length)
pair once 4 bytes are buffered, EOF absent at the final position of a
completed frame, CRC mismatch on a completed frame — invokes the Resync
procedure (no dispatch), with the diagnostic counter incremented exactly in
the CRC case; and Resync itself shifts the buffer to the first embedded SOF
at positions 1..end or clears it when there is none. -/
theorem claim_C3_resync (s : DecState) (b now : Nat) (hne : s.buf ≠ []) :
    (4 ≤ (s.buf ++ [b]).length →
      ¬ validTypeLen ((s.buf ++ [b]).getD 1 0) ((s.buf ++ [b]).getD 3 0) →
      processByte s b now
        = ({ s with buf := resyncFromBuffer (s.buf ++ [b]), lastByteMs := now }, none))
    ∧ (4 ≤ (s.buf ++ [b]).length →
      validTypeLen ((s.buf ++ [b]).getD 1 0) ((s.buf ++ [b]).getD 3 0) →
      4 + (s.buf ++ [b]).getD 3 0 + 3 ≤ (s.buf ++ [b]).length →
      (s.buf ++ [b]).getD (4 + (s.buf ++ [b]).getD 3 0 + 3 - 1) 0 ≠ EOF_BYTE →
      processByte s b now
        = ({ s with buf := resyncFromBuffer (s.buf ++ [b]), lastByteMs := now }, none))
    ∧ (4 ≤ (s.buf ++ [b]).length →
      validTypeLen ((s.buf ++ [b]).getD 1 0) ((s.buf ++ [b]).getD 3 0) →
      4 + (s.buf ++ [b]).getD 3 0 + 3 ≤ (s.buf ++ [b]).length →
      (s.buf ++ [b]).getD (4 + (s.buf ++ [b]).getD 3 0 + 3 - 1) 0 = EOF_BYTE →
      (s.buf ++ [b]).getD (4 + (s.buf ++ [b]).getD 3 0) 0
          ||| ((s.buf ++ [b]).getD (5 + (s.buf ++ [b]).getD 3 0) 0 <<< 8)
        ≠ crc16_ccitt (((s.buf ++ [b]).drop 1).take (3 + (s.buf ++ [b]).getD 3 0)) →
      processByte s b now
        = ({ s with buf := resyncFromBuffer (s.buf ++ [b]), crcErrors := s.crcErrors + 1, lastByteMs := now }, none))
    ∧ (∀ buf : List Nat,
        (resyncFromBuffer buf = [] ∧ ∀ i, 1 ≤ i → i < buf.length → buf.getD i 0 ≠ SOF)
        ∨ (∃ i, 1 ≤ i ∧ i < buf.length ∧ buf.getD i 0 = SOF
            ∧ (∀ j, 1 ≤ j → j < i → buf.getD j 0 ≠ SOF)
            ∧ resyncFromBuffer buf = buf.drop i)) := by
  have hnem : s.buf.isEmpty = false :=
    isEmpty_false_of_length_pos (List.length_pos.mpr hne)
  refine ⟨?_, ?_, ?_, resyncFromBuffer_spec⟩
  · intro hlen hbad
    have hlenOk : lenOkCheck ((s.buf ++ [b]).getD 1 0) ((s.buf ++ [b]).getD 3 0) = false := by
      rcases Bool.eq_false_or_eq_true (lenOkCheck ((s.buf ++ [b]).getD 1 0) ((s.buf ++ [b]).getD 3 0)) with h | h
      · exact absurd ((lenOkCheck_iff _ _).mp h) hbad
      · exact h
    unfold processByte
    simp only [hnem, Bool.false_eq_true, if_false]
    rw [if_neg (by omega), if_pos (Or.inr hlenOk)]
  · intro hlen hok hcomp heof
    have hlenOk := (lenOkCheck_iff _ _).mpr hok
    unfold processByte
    simp only [hnem, Bool.false_eq_true, if_false]
    rw [if_neg (by omega), if_neg (by
      rw [hlenOk]
      push_neg
      have := validTypeLen_frameSize _ _ hok
      exact ⟨by omega, by simp⟩)]
    rw [if_neg (by omega), if_pos heof]
  · intro hlen hok hcomp heof hcrc
    have hlenOk := (lenOkCheck_iff _ _).mpr hok
    unfold processByte
    simp only [hnem, Bool.false_eq_true, if_false]
    rw [if_neg (by omega), if_neg (by
      rw [hlenOk]
      push_neg
      have := validTypeLen_frameSize _ _ hok
      exact ⟨by omega, by simp⟩)]
    rw [if_neg (by omega), if_neg (not_not_intro heof), if_pos hcrc]

/-- Witness for C3: a completed AUX frame with zeroed CRC bytes fails the CRC
check, resyncs (clearing, as no embedded SOF exists) and bumps the counter. -/
theorem claim_C3_resync_witness :
    processByte ⟨SOF :: TYPE_AUX :: 0 :: 36 :: ([0, 0, 0, 0, 0, 0, 0, 0, 0, 0, 0, 0, 0, 0, 0, 0, 0, 0, 0, 0, 0, 0, 0, 0, 0, 0, 0, 0, 0, 0, 0, 0, 0, 0, 0, 0] ++ [0, 0]), 5, 0⟩
        EOF_BYTE 9
      = (⟨[], 6, 9⟩, none) := by
  have h := (claim_C3_resync
      ⟨SOF :: TYPE_AUX :: 0 :: 36 :: ([0, 0, 0, 0, 0, 0, 0, 0, 0, 0, 0, 0, 0, 0, 0, 0, 0, 0, 0, 0, 0, 0, 0, 0, 0, 0, 0, 0, 0, 0, 0, 0, 0, 0, 0, 0] ++ [0, 0]), 5, 0⟩
      EOF_BYTE 9 (by simp)).2.2.1
  have hcrc : crc16_ccitt ([TYPE_AUX, 0, 36] ++ [0, 0, 0, 0, 0, 0, 0, 0, 0, 0, 0, 0, 0, 0, 0, 0, 0, 0, 0, 0, 0, 0, 0, 0, 0, 0, 0, 0, 0, 0, 0, 0, 0, 0, 0, 0]) = 1572 := by
    simp [crc16_ccitt, crcByte, crcSteps, crcStep, Nat.testBit, TYPE_AUX]
  refine (h (by decide) (by decide) (by decide) (by decide) ?_).trans ?_
  · have e1 : (((SOF :: TYPE_AUX :: 0 :: 36 :: ([0, 0, 0, 0, 0, 0, 0, 0, 0, 0, 0, 0, 0, 0, 0, 0, 0, 0, 0, 0, 0, 0, 0, 0, 0, 0, 0, 0, 0, 0, 0, 0, 0, 0, 0, 0] ++ [0, 0])) ++ [EOF_BYTE]).drop 1).take
        (3 + ((SOF :: TYPE_AUX :: 0 :: 36 :: ([0, 0, 0, 0, 0, 0, 0, 0, 0, 0, 0, 0, 0, 0, 0, 0, 0, 0, 0, 0, 0, 0, 0, 0, 0, 0, 0, 0, 0, 0, 0, 0, 0, 0, 0, 0] ++ [0, 0])) ++ [EOF_BYTE]).getD 3 0)
        = [TYPE_AUX, 0, 36] ++ [0, 0, 0, 0, 0, 0, 0, 0, 0, 0, 0, 0, 0, 0, 0, 0, 0, 0, 0, 0, 0, 0, 0, 0, 0, 0, 0, 0, 0, 0, 0, 0, 0, 0, 0, 0] := by decide
    rw [e1, hcrc]
    decide
  · rw [show resyncFromBuffer ((SOF :: TYPE_AUX :: 0 :: 36 :: ([0, 0, 0, 0, 0, 0, 0, 0, 0, 0, 0, 0, 0, 0, 0, 0, 0, 0, 0, 0, 0, 0, 0, 0, 0, 0, 0, 0, 0, 0, 0, 0, 0, 0, 0, 0] ++ [0, 0])) ++ [EOF_BYTE])
        = [] from by decide]

/-! ## C5: stale-buffer timeout -/

/-- **C5**: if the buffer is non-empty and more than 10 ms have passed since
the last byte, the next invocation hard-clears the whole buffer — no SOF
rescan, independent of the buffer's contents — and then processes the newly
available bytes from the empty buffer. -/
theorem claim_C5_staleClear (s : DecState) (now : Nat) (input : List Nat)
    (hne : s.buf ≠ []) (hstale : now - s.lastByteMs > 10) :
    processSerialData s now input
        = processBytes ⟨[], s.crcErrors, s.lastByteMs⟩ now input
      ∧ processSerialData s now [] = (⟨[], s.crcErrors, s.lastByteMs⟩, []) := by
  cases s with
  | mk buf e l =>
    constructor
    · unfold processSerialData
      rw [if_pos ⟨List.length_pos.mpr hne, hstale⟩]
    · unfold processSerialData
      rw [if_pos ⟨List.length_pos.mpr hne, hstale⟩]
      rfl

/-- Witness for C5: a buffer that contains an embedded SOF is nevertheless
cleared outright (a resync scan would instead have kept `[SOF, 2]`). -/
theorem claim_C5_staleClear_witness :
    processSerialData ⟨[5, SOF, 2], 3, 0⟩ 11 [] = (⟨[], 3, 0⟩, []) :=
  (claim_C5_staleClear ⟨[5, SOF, 2], 3, 0⟩ 11 [] (by simp) (by norm_num)).2

/-! ## C9: decoder buffer safety -/

theorem resyncScan_length_le (l : List Nat) : (resyncScan l).length ≤ l.length := by
  induction l with
  | nil => simp [resyncScan]
  | cons b rest ih =>
    by_cases hb : b = SOF
    · simp [resyncScan, hb]
    · simp only [resyncScan, if_neg hb]
      calc (resyncScan rest).length ≤ rest.length := ih
        _ ≤ (b :: rest).length := by simp

theorem resyncFromBuffer_length_le (l : List Nat) (h : l ≠ []) :
    (resyncFromBuffer l).length ≤ l.length - 1 := by
  cases l with
  | nil => exact absurd rfl h
  | cons a rest =>
    simpa [resyncFromBuffer] using resyncScan_length_le rest

theorem lenOkCheck_cases (t len : Nat) (h : lenOkCheck t len = true) :
    len = FIXED_PAYLOAD_LEN ∨ len = AUX_PAYLOAD_LEN := by
  rcases (lenOkCheck_iff t len).mp h with ⟨_, h⟩ | ⟨_, h⟩
  · exact Or.inl h
  · exact Or.inr h

/-- One step keeps the buffer at ≤ 74 bytes. -/
theorem processByte_buf_le (s : DecState) (b now : Nat) (h : s.buf.length ≤ 74) :
    (processByte s b now).1.buf.length ≤ 74 := by
  have hres : (resyncFromBuffer (s.buf ++ [b])).length ≤ 74 := by
    have h1 : (resyncFromBuffer (s.buf ++ [b])).length ≤ (s.buf ++ [b]).length - 1 :=
      resyncFromBuffer_length_le _ (by simp)
    simp only [List.length_append, List.length_cons, List.length_nil] at h1
    omega
  unfold processByte
  by_cases h0 : s.buf.isEmpty
  · rw [if_pos h0]
    by_cases hb : b = SOF
    · rw [if_pos hb]
      simp
    · rw [if_neg hb]
      dsimp only
      rw [List.isEmpty_iff] at h0
      simp [h0]
  · rw [if_neg h0]
    by_cases h4 : (s.buf ++ [b]).length < 4
    · rw [if_pos h4]
      dsimp only
      simp only [List.length_append, List.length_cons, List.length_nil] at h4 ⊢
      omega
    · rw [if_neg h4]
      by_cases hbad : 4 + (s.buf ++ [b]).getD 3 0 + 3 > MAX_FRAME_SIZE
          ∨ lenOkCheck ((s.buf ++ [b]).getD 1 0) ((s.buf ++ [b]).getD 3 0) = false
      · rw [if_pos hbad]
        exact hres
      · rw [if_neg hbad]
        push_neg at hbad
        have hok : lenOkCheck ((s.buf ++ [b]).getD 1 0) ((s.buf ++ [b]).getD 3 0) = true := by
          rcases Bool.eq_false_or_eq_true
              (lenOkCheck ((s.buf ++ [b]).getD 1 0) ((s.buf ++ [b]).getD 3 0)) with hx | hx
          · exact hx
          · exact absurd hx hbad.2
        have hlen := lenOkCheck_cases _ _ hok
        by_cases hcomp : (s.buf ++ [b]).length < 4 + (s.buf ++ [b]).getD 3 0 + 3
        · rw [if_pos hcomp]
          dsimp only
          simp only [List.length_append, List.length_cons, List.length_nil] at hcomp ⊢
          rcases hlen with hl | hl <;>
            rw [hl] at hcomp <;>
            simp only [FIXED_PAYLOAD_LEN, AUX_PAYLOAD_LEN] at hcomp <;>
            omega
        · rw [if_neg hcomp]
          by_cases heof : (s.buf ++ [b]).getD (4 + (s.buf ++ [b]).getD 3 0 + 3 - 1) 0 ≠ EOF_BYTE
          · rw [if_pos heof]
            exact hres
          · rw [if_neg heof]
            by_cases hcrc : (s.buf ++ [b]).getD (4 + (s.buf ++ [b]).getD 3 0) 0
                ||| ((s.buf ++ [b]).getD (5 + (s.buf ++ [b]).getD 3 0) 0 <<< 8)
              ≠ crc16_ccitt (((s.buf ++ [b]).drop 1).take (3 + (s.buf ++ [b]).getD 3 0))
            · rw [if_pos hcrc]
              exact hres
            · rw [if_neg hcrc]
              dsimp only
              simp

/-- Invariant preservation along a whole input list. -/
theorem processBytes_buf_le (now : Nat) (input : List Nat) :
    ∀ s : DecState, s.buf.length ≤ 74 →
      (processBytes s now input).1.buf.length ≤ 74 := by
  induction input with
  | nil =>
    intro s hs
    rw [processBytes_nil]
    exact hs
  | cons b rest ih =>
    intro s hs
    rw [processBytes_cons]
    exact ih _ (processByte_buf_le s b now hs)

/-- **C9**: starting from the empty buffer, after every decoder step the
buffer holds at most 74 bytes, so every write `rxBuffer[rxIndex++]` happens
at an index < 75 ≤ `MAX_FRAME_SIZE` = 80 and `rxIndex` never exceeds 75. -/
theorem claim_C9_bufferSafety :
    (∀ (s : DecState) (b now : Nat), s.buf.length ≤ 74 →
      s.buf.length < MAX_FRAME_SIZE
        ∧ (s.buf ++ [b]).length ≤ 75
        ∧ (processByte s b now).1.buf.length ≤ 74)
    ∧ (∀ (e l now : Nat) (input : List Nat),
        (processBytes ⟨[], e, l⟩ now input).1.buf.length ≤ 74) := by
  constructor
  · intro s b now h
    refine ⟨by simp only [MAX_FRAME_SIZE]; omega, by simp; omega,
      processByte_buf_le s b now h⟩
  · intro e l now input
    exact processBytes_buf_le now input ⟨[], e, l⟩ (by simp)

/-- Witness for C9 at a nearly-full buffer and an arbitrary byte. -/
theorem claim_C9_bufferSafety_witness :
    (⟨List.replicate 74 0, 0, 0⟩ : DecState).buf.length < MAX_FRAME_SIZE
      ∧ ((⟨List.replicate 74 0, 0, 0⟩ : DecState).buf ++ [7]).length ≤ 75
      ∧ (processByte ⟨List.replicate 74 0, 0, 0⟩ 7 3).1.buf.length ≤ 74 :=
  claim_C9_bufferSafety.1 ⟨List.replicate 74 0, 0, 0⟩ 7 3 (by simp)

/-! ## C4: recovery after a corrupted frame -/

theorem processBytes_append (s : DecState) (now : Nat) (xs ys : List Nat) :
    processBytes s now (xs ++ ys)
      = ((processBytes (processBytes s now xs).1 now ys).1,
         (processBytes s now xs).2 ++ (processBytes (processBytes s now xs).1 now ys).2) := by
  induction xs generalizing s with
  | nil =>
    rw [List.nil_append, processBytes_nil]
    simp
  | cons b rest ih =>
    rw [List.cons_append, processBytes_cons, ih, processBytes_cons]
    simp [List.append_assoc]

theorem processByte_empty_skip (b now e l : Nat) (hb : b ≠ SOF) :
    processByte ⟨[], e, l⟩ b now = (⟨[], e, now⟩, none) := by
  unfold processByte
  simp [hb]

/-- Non-SOF garbage is discarded byte by byte from the empty buffer. -/
theorem processBytes_discard (now : Nat) :
    ∀ (bytes : List Nat), (∀ x ∈ bytes, x ≠ SOF) → bytes ≠ [] →
    ∀ e l, processBytes ⟨[], e, l⟩ now bytes = (⟨[], e, now⟩, []) := by
  intro bytes
  induction bytes with
  | nil => intro _ h; exact absurd rfl h
  | cons b rest ih =>
    intro hall _ e l
    rw [processBytes_cons, processByte_empty_skip b now e l (hall b (by simp))]
    dsimp only
    cases rest with
    | nil =>
      rw [processBytes_nil]
      rfl
    | cons c rest' =>
      rw [ih (fun x hx => hall x (by simp [hx])) (by simp) e now]
      rfl

/-- Possibly-empty non-SOF garbage followed by a well-formed frame dispatches
exactly the frame's payload. -/
theorem processBytes_junk_then_frame (junk : List Nat)
    (hj : ∀ x ∈ junk, x ≠ SOF) (t s : Nat) (p : List Nat)
    (hv : validTypeLen t p.length) (e l now : Nat) :
    processBytes ⟨[], e, l⟩ now (junk ++ encodeFrame t s p)
      = (⟨[], e, now⟩, [⟨t, s, p⟩]) := by
  rw [processBytes_append]
  cases junk with
  | nil =>
    rw [processBytes_nil]
    dsimp only
    rw [processBytes_encodeFrame t s p hv e l now]
    rfl
  | cons b rest =>
    rw [processBytes_discard now (b :: rest) hj (by simp) e l]
    dsimp only
    rw [processBytes_encodeFrame t s p hv e now now]
    rfl

theorem lenOkCheck_of_not_valid (x z : Nat) (h : ¬ validTypeLen x z) :
    lenOkCheck x z = false := by
  rcases Bool.eq_false_or_eq_true (lenOkCheck x z) with hx | hx
  · exact absurd ((lenOkCheck_iff x z).mp hx) h
  · exact hx

theorem lenOkCheck_badLen (x len : Nat) (h68 : len ≠ FIXED_PAYLOAD_LEN)
    (h36 : len ≠ AUX_PAYLOAD_LEN) : lenOkCheck x len = false := by
  apply lenOkCheck_of_not_valid
  rintro (⟨_, h⟩ | ⟨_, h⟩)
  · exact h68 h
  · exact h36 h

theorem lenOkCheck_badType (x len : Nat) (h1 : x ≠ TYPE_FFT) (h2 : x ≠ TYPE_CMD)
    (h3 : x ≠ TYPE_AUX) : lenOkCheck x len = false := by
  apply lenOkCheck_of_not_valid
  rintro (⟨h, _⟩ | ⟨h, _⟩)
  · rcases h with h | h
    · exact h1 h
    · exact h2 h
  · exact h3 h

/-- Fourth buffered byte with a bad (type, length) declaration: resync. -/
theorem processByte_header_fail (b0 b1 b2 b3 e l now : Nat)
    (hbad : lenOkCheck b1 b3 = false) :
    processByte ⟨[b0, b1, b2], e, l⟩ b3 now
      = (⟨resyncScan [b1, b2, b3], e, now⟩, none) := by
  unfold processByte
  rw [if_neg (by simp)]
  dsimp only [List.cons_append, List.nil_append]
  have hg3 : [b0, b1, b2, b3].getD 3 0 = b3 := rfl
  have hg1 : [b0, b1, b2, b3].getD 1 0 = b1 := rfl
  rw [if_neg (by norm_num), hg3, hg1, if_pos (Or.inr hbad)]
  rfl

/-- SOF-led 4-byte prefix with a bad (type, length) declaration resyncs to the
scan of its last three bytes and continues with the rest of the stream. -/
theorem processBytes_header_fail (b1 b2 b3 : Nat) (rest : List Nat)
    (e l now : Nat) (hbad : lenOkCheck b1 b3 = false) :
    processBytes ⟨[], e, l⟩ now (SOF :: b1 :: b2 :: b3 :: rest)
      = processBytes ⟨resyncScan [b1, b2, b3], e, now⟩ now rest := by
  have s1 : processByte ⟨[], e, l⟩ SOF now = (⟨[SOF], e, now⟩, none) := rfl
  have s2 : processByte ⟨[SOF], e, now⟩ b1 now = (⟨[SOF, b1], e, now⟩, none) := rfl
  have s3 : processByte ⟨[SOF, b1], e, now⟩ b2 now
      = (⟨[SOF, b1, b2], e, now⟩, none) := rfl
  rw [processBytes_cons, s1]
  dsimp only
  rw [processBytes_cons, s2]
  dsimp only
  rw [processBytes_cons, s3]
  dsimp only
  rw [processBytes_cons, processByte_header_fail SOF b1 b2 b3 e now now hbad]
  rfl

/-- **C4 (amended)**: a corrupted frame followed immediately by a well-formed
valid frame is recovered from — the decoder, starting empty, dispatches
exactly the valid frame's payload — provided the corrupted bytes contain no
SOF byte at positions 1..end and, if they begin with SOF and span at least 4
bytes, their declared (type, length) pair is invalid.  (Without that proviso
the claim is false: see the counterexample, where a truncated frame with a
valid header absorbs the whole valid frame into a CRC-passing bogus frame.) -/
theorem claim_C4_amended (G : List Nat) (t s : Nat) (p : List Nat)
    (hv : validTypeLen t p.length)
    (hGtail : ∀ i, 1 ≤ i → i < G.length → G.getD i 0 ≠ SOF)
    (hGhead : G.getD 0 0 = SOF → 4 ≤ G.length →
      ¬ validTypeLen (G.getD 1 0) (G.getD 3 0))
    (e l now : Nat) :
    processSerialData ⟨[], e, l⟩ now (G ++ encodeFrame t s p)
      = (⟨[], e, now⟩, [⟨t, s, p⟩]) := by
  have hlen : (encodeFrame t s p).length = p.length + 7 := encodeFrame_length t s p
  have hlen43 : 43 ≤ (encodeFrame t s p).length := by
    rcases hv with ⟨_, h⟩ | ⟨_, h⟩ <;>
      simp only [FIXED_PAYLOAD_LEN, AUX_PAYLOAD_LEN] at h <;> omega
  unfold processSerialData
  rw [if_neg (by simp)]
  cases G with
  | nil =>
    rw [List.nil_append]
    exact processBytes_encodeFrame t s p hv e l now
  | cons g Gt =>
    have hmem : ∀ x ∈ Gt, x ≠ SOF := by
      intro x hx hxs
      obtain ⟨i, hi, hgi⟩ := List.getElem_of_mem hx
      apply hGtail (i + 1) (by omega) (by simp only [List.length_cons]; omega)
      rw [List.getD_cons_succ, List.getD_eq_getElem?_getD, List.getElem?_eq_getElem hi]
      rw [hgi]
      exact hxs
    by_cases hg : g = SOF
    · subst hg
      cases Gt with
      | nil =>
        show processBytes ⟨[], e, l⟩ now
            (SOF :: SOF :: t :: s :: (encodeFrame t s p).drop 3)
          = (⟨[], e, now⟩, [⟨t, s, p⟩])
        rw [processBytes_header_fail SOF t s _ e l now
          (lenOkCheck_badType SOF s (by decide) (by decide) (by decide))]
        have hstate : (⟨resyncScan [SOF, t, s], e, now⟩ : DecState)
            = ⟨(encodeFrame t s p).take 3, e, now⟩ := rfl
        rw [hstate, frame_run t s p hv ((encodeFrame t s p).length - 4) 3
          (by omega) (by norm_num) e now now]
      | cons x Gt2 =>
        have hx : x ≠ SOF := hmem x (by simp)
        cases Gt2 with
        | nil =>
          show processBytes ⟨[], e, l⟩ now
              (SOF :: x :: SOF :: t :: (encodeFrame t s p).drop 2)
            = (⟨[], e, now⟩, [⟨t, s, p⟩])
          have htbad : lenOkCheck x t = false := by
            apply lenOkCheck_badLen
            · rcases hv with ⟨ht, _⟩ | ⟨ht, _⟩
              · rcases ht with ht | ht <;> rw [ht] <;> decide
              · rw [ht]; decide
            · rcases hv with ⟨ht, _⟩ | ⟨ht, _⟩
              · rcases ht with ht | ht <;> rw [ht] <;> decide
              · rw [ht]; decide
          rw [processBytes_header_fail x SOF t _ e l now htbad]
          have hstate : (⟨resyncScan [x, SOF, t], e, now⟩ : DecState)
              = ⟨(encodeFrame t s p).take 2, e, now⟩ := by
            have h1 : resyncScan [x, SOF, t] = [SOF, t] := by
              simp [resyncScan, hx]
            rw [h1]
            rfl
          rw [hstate, frame_run t s p hv ((encodeFrame t s p).length - 3) 2
            (by omega) (by norm_num) e now now]
        | cons y Gt3 =>
          have hy : y ≠ SOF := hmem y (by simp)
          cases Gt3 with
          | nil =>
            show processBytes ⟨[], e, l⟩ now
                (SOF :: x :: y :: SOF :: (encodeFrame t s p).drop 1)
              = (⟨[], e, now⟩, [⟨t, s, p⟩])
            have hbad : lenOkCheck x SOF = false :=
              lenOkCheck_badLen x SOF (by decide) (by decide)
            rw [processBytes_header_fail x y SOF _ e l now hbad]
            have hstate : (⟨resyncScan [x, y, SOF], e, now⟩ : DecState)
                = ⟨(encodeFrame t s p).take 1, e, now⟩ := by
              have h1 : resyncScan [x, y, SOF] = [SOF] := by
                simp [resyncScan, hx, hy]
              rw [h1]
              rfl
            rw [hstate, frame_run t s p hv ((encodeFrame t s p).length - 2) 1
              (by omega) (by norm_num) e now now]
          | cons z G4 =>
            have hz : z ≠ SOF := hmem z (by simp)
            have hbad : ¬ validTypeLen x z := by
              have h := hGhead rfl (by simp only [List.length_cons]; omega)
              exact h
            show processBytes ⟨[], e, l⟩ now
                (SOF :: x :: y :: z :: (G4 ++ encodeFrame t s p))
              = (⟨[], e, now⟩, [⟨t, s, p⟩])
            rw [processBytes_header_fail x y z _ e l now
              (lenOkCheck_of_not_valid x z hbad)]
            have hstate : (⟨resyncScan [x, y, z], e, now⟩ : DecState)
                = ⟨[], e, now⟩ := by
              have h1 : resyncScan [x, y, z] = [] := by
                simp [resyncScan, hx, hy, hz]
              rw [h1]
            rw [hstate]
            exact processBytes_junk_then_frame G4
              (fun w hw => hmem w (by simp [hw])) t s p hv e now now
    · exact processBytes_junk_then_frame (g :: Gt)
        (by
          intro w hw
          rcases List.mem_cons.mp hw with h | h
          · rw [h]; exact hg
          · exact hmem w h) t s p hv e l now

/-- Witness for C4 (amended): a 5-byte corrupted header followed by a valid
AUX frame; the AUX payload is dispatched intact. -/
theorem claim_C4_amended_witness :
    processSerialData ⟨[], 0, 0⟩ 5
        ([SOF, 9, 9, 9, 7] ++ encodeFrame TYPE_AUX 3 (List.replicate 36 0))
      = (⟨[], 0, 5⟩, [⟨TYPE_AUX, 3, List.replicate 36 0⟩]) :=
  claim_C4_amended [SOF, 9, 9, 9, 7] TYPE_AUX 3 (List.replicate 36 0)
    (by right; exact ⟨rfl, by simp [AUX_PAYLOAD_LEN]⟩)
    (by decide) (by decide) 0 0 5

/-- **C4 counterexample**: the claim as stated fails.  The corrupted frame
`G` below is a truncated FEATURE frame (valid header, 28 bytes of body, then
cut off); the stream continues, with no gap, with a complete well-formed AUX
frame.  The decoder accumulates `G` together with the entire valid frame as
one 75-byte FEATURE frame whose CRC check passes, dispatches that bogus
FEATURE payload, and never dispatches the valid AUX frame's payload — the
bytes of the valid frame are consumed by the corrupted one. -/
theorem claim_C4_counterexample :
    validTypeLen TYPE_AUX ([0, 0, 0, 0, 0, 0, 0, 0, 0, 0, 0, 0, 0, 0, 0, 0, 0, 0, 0, 0, 0, 0, 0, 0, 0, 0, 0, 0, 0, 0, 0, 0, 0, 0, 0, 0] : List Nat).length
    ∧ processSerialData ⟨[], 0, 0⟩ 5
        (([SOF, TYPE_FFT, 0, 68, 0, 0, 0, 0, 0, 0, 0, 0, 0, 0, 0, 0, 0, 0, 0, 0, 0, 0, 0, 0, 0, 0, 0, 0, 0, 0, 142, 241] : List Nat) ++ encodeFrame TYPE_AUX 0 [0, 0, 0, 0, 0, 0, 0, 0, 0, 0, 0, 0, 0, 0, 0, 0, 0, 0, 0, 0, 0, 0, 0, 0, 0, 0, 0, 0, 0, 0, 0, 0, 0, 0, 0, 0])
      = (⟨[], 0, 5⟩, [⟨TYPE_FFT, 0, [0, 0, 0, 0, 0, 0, 0, 0, 0, 0, 0, 0, 0, 0, 0, 0, 0, 0, 0, 0, 0, 0, 0, 0, 0, 0, 142, 241, SOF, TYPE_AUX, 0, 36, 0, 0, 0, 0, 0, 0, 0, 0, 0, 0, 0, 0, 0, 0, 0, 0, 0, 0, 0, 0, 0, 0, 0, 0, 0, 0, 0, 0, 0, 0, 0, 0, 0, 0, 0, 0]⟩]) := by
  constructor
  · right
    exact ⟨rfl, rfl⟩
  · have hcrcF : crc16_ccitt ([TYPE_AUX, 0, 36] ++ [0, 0, 0, 0, 0, 0, 0, 0, 0, 0, 0, 0, 0, 0, 0, 0, 0, 0, 0, 0, 0, 0, 0, 0, 0, 0, 0, 0, 0, 0, 0, 0, 0, 0, 0, 0]) = 1572 := by
      simp [crc16_ccitt, crcByte, crcSteps, crcStep, Nat.testBit, TYPE_AUX]
    have hF : encodeFrame TYPE_AUX 0 [0, 0, 0, 0, 0, 0, 0, 0, 0, 0, 0, 0, 0, 0, 0, 0, 0, 0, 0, 0, 0, 0, 0, 0, 0, 0, 0, 0, 0, 0, 0, 0, 0, 0, 0, 0] = [SOF, TYPE_AUX, 0, 36, 0, 0, 0, 0, 0, 0, 0, 0, 0, 0, 0, 0, 0, 0, 0, 0, 0, 0, 0, 0, 0, 0, 0, 0, 0, 0, 0, 0, 0, 0, 0, 0, 0, 0, 0, 0, 36, 6, EOF_BYTE] := by
      have h1 : ([0, 0, 0, 0, 0, 0, 0, 0, 0, 0, 0, 0, 0, 0, 0, 0, 0, 0, 0, 0, 0, 0, 0, 0, 0, 0, 0, 0, 0, 0, 0, 0, 0, 0, 0, 0] : List Nat).length = 36 := rfl
      simp only [encodeFrame, h1, hcrcF]
      norm_num [SOF, TYPE_AUX, EOF_BYTE]
    have hcrcB : crc16_ccitt ([TYPE_FFT, 0, 68] ++ [0, 0, 0, 0, 0, 0, 0, 0, 0, 0, 0, 0, 0, 0, 0, 0, 0, 0, 0, 0, 0, 0, 0, 0, 0, 0, 142, 241, SOF, TYPE_AUX, 0, 36, 0, 0, 0, 0, 0, 0, 0, 0, 0, 0, 0, 0, 0, 0, 0, 0, 0, 0, 0, 0, 0, 0, 0, 0, 0, 0, 0, 0, 0, 0, 0, 0, 0, 0, 0, 0]) = 1572 := by
      simp [crc16_ccitt, crcByte, crcSteps, crcStep, Nat.testBit, TYPE_FFT,
        TYPE_AUX, SOF]
    have hstream : ([SOF, TYPE_FFT, 0, 68, 0, 0, 0, 0, 0, 0, 0, 0, 0, 0, 0, 0, 0, 0, 0, 0, 0, 0, 0, 0, 0, 0, 0, 0, 0, 0, 142, 241] : List Nat) ++ [SOF, TYPE_AUX, 0, 36, 0, 0, 0, 0, 0, 0, 0, 0, 0, 0, 0, 0, 0, 0, 0, 0, 0, 0, 0, 0, 0, 0, 0, 0, 0, 0, 0, 0, 0, 0, 0, 0, 0, 0, 0, 0, 36, 6, EOF_BYTE]
        = encodeFrame TYPE_FFT 0 [0, 0, 0, 0, 0, 0, 0, 0, 0, 0, 0, 0, 0, 0, 0, 0, 0, 0, 0, 0, 0, 0, 0, 0, 0, 0, 142, 241, SOF, TYPE_AUX, 0, 36, 0, 0, 0, 0, 0, 0, 0, 0, 0, 0, 0, 0, 0, 0, 0, 0, 0, 0, 0, 0, 0, 0, 0, 0, 0, 0, 0, 0, 0, 0, 0, 0, 0, 0, 0, 0] := by
      have h1 : ([0, 0, 0, 0, 0, 0, 0, 0, 0, 0, 0, 0, 0, 0, 0, 0, 0, 0, 0, 0, 0, 0, 0, 0, 0, 0, 142, 241, SOF, TYPE_AUX, 0, 36, 0, 0, 0, 0, 0, 0, 0, 0, 0, 0, 0, 0, 0, 0, 0, 0, 0, 0, 0, 0, 0, 0, 0, 0, 0, 0, 0, 0, 0, 0, 0, 0, 0, 0, 0, 0] : List Nat).length = 68 := rfl
      simp only [encodeFrame, h1, hcrcB]
      norm_num [SOF, TYPE_FFT, TYPE_AUX, EOF_BYTE]
    rw [hF, hstream]
    unfold processSerialData
    rw [if_neg (by simp)]
    exact processBytes_encodeFrame TYPE_FFT 0 [0, 0, 0, 0, 0, 0, 0, 0, 0, 0, 0, 0, 0, 0, 0, 0, 0, 0, 0, 0, 0, 0, 0, 0, 0, 0, 142, 241, SOF, TYPE_AUX, 0, 36, 0, 0, 0, 0, 0, 0, 0, 0, 0, 0, 0, 0, 0, 0, 0, 0, 0, 0, 0, 0, 0, 0, 0, 0, 0, 0, 0, 0, 0, 0, 0, 0, 0, 0, 0, 0]
      (Or.inl ⟨Or.inl rfl, rfl⟩) 0 0 5

/-! ## FFT-side DSP models (teensy_fft/src/main.cpp)

`float` arithmetic is modelled exactly over `ℚ`; the claims below concern
threshold comparisons and control flow, not rounding.  `(uint8)` casts of
non-negative floats truncate toward zero and are modelled as `Int.toNat ∘ ⌊·⌋`. -/

/-! ### C7: the dominant-pitch decision of `calculateChroma` -/

/-- Normalization and 8-bit quantization of the smoothed chroma vector:
`chromaOut[i] = (uint8)(normalized * 255.0f)` with the divide-by-zero guard
`maxChroma > 0.001f`. -/
def chromaOutOf (smoothed : List ℚ) : List Nat :=
  let maxChroma := smoothed.foldl (fun m v => if v > m then v else m) 0
  smoothed.map fun v =>
    let normalized : ℚ := if maxChroma > 1/1000 then v / maxChroma else 0
    Int.toNat ⌊normalized * 255⌋

/-- The argmax scan `for (i = 1; ...) if (chromaOut[i] > chromaOut[maxIdx])`:
first maximum wins. -/
def chromaMaxIdx (out : List Nat) : Nat :=
  (List.range' 1 11).foldl
    (fun best i => if out.getD i 0 > out.getD best 0 then i else best) 0

/-- The tail of `calculateChroma` (lines 229–262): normalization, argmax, the
confidence ratio with its `avgChroma > 0.001f` guard, and the dominant-pitch
decision, returning `(dominantPitch, dominantPitchStrength)`. -/
def calculateChromaDecision (smoothed : List ℚ) : Nat × Nat :=
  let totalChroma := smoothed.foldl (· + ·) 0
  let out := chromaOutOf smoothed
  let maxIdx := chromaMaxIdx out
  let avgChroma := totalChroma / 12
  let peakRatio : ℚ :=
    if avgChroma > 1/1000 then smoothed.getD maxIdx 0 / avgChroma else 0
  if out.getD maxIdx 0 > 30 ∧ peakRatio > 3/2 then
    (maxIdx, min 255 (Int.toNat ⌊(peakRatio - 1) * 100⌋))
  else
    (255, 0)

/-! ### C8: the syllable-onset gate of `calculateVocalEnvelope` -/

def VOCAL_HIT_THRESH : ℚ := 12/100

def VOCAL_HIT_SLOPE : ℚ := 2/100

def VOCAL_MIN_GAP_MS : Nat := 80

/-- The part of the vocal state that feeds back into the hit predicate
(`vocalEnvPrev`, `lastSyllableMs`); the note/capture/sustain fields read the
hit but never influence it. -/
structure VocalOnsetState where
  vocalEnvPrev : ℚ
  lastSyllableMs : Nat
deriving DecidableEq, Repr

/-- The onset gate of `calculateVocalEnvelope` (lines 295–311 and the
`vocalEnvPrev` update at line 379), applied to the already-smoothed envelope
sample of the current tick. -/
def vocalOnsetStep (st : VocalOnsetState) (envSmoothed : ℚ) (now : Nat) :
    VocalOnsetState × Bool :=
  let delta := envSmoothed - st.vocalEnvPrev
  let hit := decide (envSmoothed > VOCAL_HIT_THRESH)
    && decide (delta > VOCAL_HIT_SLOPE)
    && decide (now - st.lastSyllableMs > VOCAL_MIN_GAP_MS)
  (⟨envSmoothed, if hit then now else st.lastSyllableMs⟩, hit)

/-- The timestamps at which a run over `(millis, envelope)` samples asserts a
syllable onset. -/
def vocalOnsetHits (st : VocalOnsetState) : List (Nat × ℚ) → List Nat
  | [] => []
  | (now, env) :: rest =>
    let r := vocalOnsetStep st env now
    (if r.2 then [now] else []) ++ vocalOnsetHits r.1 rest

/-! ### C6 / C10: the transmit paths of the FFT node -/

/-- `0.00000001f`, the non-negligible-energy threshold of the silence gate. -/
def SILENCE_EPS : ℚ := 1/100000000

/-- `'M'` -/
def MODE_MUSIC : Nat := 77

/-- Transmission-relevant state of the FFT node.  Frames put on the wire are
abstracted to their `(type, sequence)` header: the FEATURE payload embeds
IEEE-754 float images that sit outside the byte-level model, and which frames
are emitted never depends on payload contents. -/
structure FftNodeState where
  smoothedBandAmplitude : List ℚ
  activeBands : Nat
  chromaOut : List Nat
  dominantPitch : Nat
  dominantPitchStrength : Nat
  vocalEnvOut : Nat
  vocalSyllableHit : Nat
  vocalNoteOut : Nat
  vocalNoteStrengthOut : Nat
  vocalSustain : Nat
  wasTransmitting : Bool
  fftSeq : Nat
  cmdSeq : Nat
  auxSeq : Nat
deriving DecidableEq, Repr

/-- `sendFftFrame` (lines 602–658): the silence gate over
`smoothedBandAmplitude[0..activeBands)`, and on signal the FEATURE frame
followed by `sendAuxFrame()` — the only call site of `sendAuxFrame` in the
program.  The function reads but never writes the band/vocal/chroma state;
in the suppressed case only `wasTransmitting` changes. -/
def sendFftFrame (st : FftNodeState) : FftNodeState × List (Nat × Nat) :=
  let hasSignal := (List.range st.activeBands).any fun i =>
    decide (st.smoothedBandAmplitude.getD i 0 > SILENCE_EPS)
  if hasSignal = false then
    ({ st with wasTransmitting := false }, [])
  else
    ({ st with wasTransmitting := true, fftSeq := (st.fftSeq + 1) % 256, auxSeq := (st.auxSeq + 1) % 256 },
      [(TYPE_FFT, st.fftSeq), (TYPE_AUX, st.auxSeq)])

/-- `forwardESP32Commands` (lines 698–778): when a command line is available
it is parsed into `(mode, pattern, brightness)` and a COMMAND frame is always
encoded and written immediately; in the `'M'` branch the band configuration
is re-asserted to 12 bands, clearing the smoothing state only on an actual
change. -/
def forwardESP32Commands (st : FftNodeState) (cmd : Option (Nat × Nat × Nat)) :
    FftNodeState × List (Nat × Nat) :=
  match cmd with
  | none => (st, [])
  | some (mode, _, _) =>
    let st1 :=
      if mode = MODE_MUSIC ∧ st.activeBands ≠ 12 then
        { st with activeBands := 12, smoothedBandAmplitude := List.replicate 12 0 }
      else st
    ({ st1 with cmdSeq := (st1.cmdSeq + 1) % 256 }, [(TYPE_CMD, st1.cmdSeq)])

/-- One iteration of the FFT node's `loop()`: command forwarding, then — on
the ~17 ms tick boundary — `sendFftFrame`.  `calculateBandAmplitudes` is the
producer of `smoothedBandAmplitude`, abstracted as the state's current
value. -/
def fftLoopIteration (st : FftNodeState) (cmd : Option (Nat × Nat × Nat))
    (tick : Bool) : FftNodeState × List (Nat × Nat) :=
  let rc := forwardESP32Commands st cmd
  let rf := if tick then sendFftFrame rc.1 else (rc.1, [])
  (rf.1, rc.2 ++ rf.2)

/-! ## C7 theorems -/

/-- The first-max-wins foldl argmax scan: the result is the start index or one
of the scanned indices, and its value dominates the start's and every scanned
index's value. -/
theorem argmax_foldl_spec (out : List Nat) (idxs : List Nat) :
    ∀ b : Nat,
      (idxs.foldl (fun best i => if out.getD i 0 > out.getD best 0 then i else best) b = b
        ∨ idxs.foldl (fun best i => if out.getD i 0 > out.getD best 0 then i else best) b ∈ idxs)
      ∧ out.getD b 0
          ≤ out.getD (idxs.foldl (fun best i => if out.getD i 0 > out.getD best 0 then i else best) b) 0
      ∧ ∀ j ∈ idxs, out.getD j 0
          ≤ out.getD (idxs.foldl (fun best i => if out.getD i 0 > out.getD best 0 then i else best) b) 0 := by
  induction idxs with
  | nil =>
    intro b
    exact ⟨Or.inl rfl, le_refl _, by simp⟩
  | cons i rest ih =>
    intro b
    rw [List.foldl_cons]
    by_cases hc : out.getD i 0 > out.getD b 0
    · simp only [if_pos hc]
      obtain ⟨h1, h2, h3⟩ := ih i
      refine ⟨Or.inr ?_, le_trans (le_of_lt hc) h2, ?_⟩
      · rcases h1 with h | h
        · rw [h]
          exact List.mem_cons_self i rest
        · exact List.mem_cons_of_mem i h
      · intro j hj
        rcases List.mem_cons.mp hj with h | h
        · rw [h]
          exact h2
        · exact h3 j h
    · simp only [if_neg hc]
      obtain ⟨h1, h2, h3⟩ := ih b
      push_neg at hc
      refine ⟨?_, h2, ?_⟩
      · rcases h1 with h | h
        · exact Or.inl h
        · exact Or.inr (List.mem_cons_of_mem i h)
      · intro j hj
        rcases List.mem_cons.mp hj with h | h
        · rw [h]
          exact le_trans hc h2
        · exact h3 j h

/-- `chromaMaxIdx` really is the argmax over the 12 pitch classes. -/
theorem chromaMaxIdx_spec (out : List Nat) :
    chromaMaxIdx out < 12
      ∧ ∀ j, j < 12 → out.getD j 0 ≤ out.getD (chromaMaxIdx out) 0 := by
  obtain ⟨h1, h2, h3⟩ := argmax_foldl_spec out (List.range' 1 11) 0
  constructor
  · rcases h1 with h | h
    · rw [chromaMaxIdx, h]
      norm_num
    · rw [chromaMaxIdx]
      obtain ⟨k, hk, hke⟩ := List.mem_range'.mp h
      omega
  · intro j hj
    rcases Nat.eq_zero_or_pos j with h0 | h0
    · rw [h0]
      exact h2
    · exact h3 j (List.mem_range'.mpr ⟨j - 1, by omega, by omega⟩)

/-- **C7 counterexample**: the claim as stated fails at a quiet input.  All
twelve smoothed chroma values are tiny; the argmax class 0 has normalized
value 255 > 30 and true peak ratio 360/41 > 1.5, so the claim reports class 0
dominant — but the code's `avgChroma > 0.001f` guard zeroes `peakRatio` and
the sentinel (255, 0) is produced instead. -/
theorem claim_C7_counterexample :
    calculateChromaDecision [3/1000, 1/10000, 1/10000, 1/10000, 1/10000, 1/10000, 1/10000, 1/10000, 1/10000, 1/10000, 1/10000, 1/10000] = (255, 0)
    ∧ (chromaOutOf [3/1000, 1/10000, 1/10000, 1/10000, 1/10000, 1/10000, 1/10000, 1/10000, 1/10000, 1/10000, 1/10000, 1/10000]).getD
        (chromaMaxIdx (chromaOutOf [3/1000, 1/10000, 1/10000, 1/10000, 1/10000, 1/10000, 1/10000, 1/10000, 1/10000, 1/10000, 1/10000, 1/10000])) 0 > 30
    ∧ ([3/1000, 1/10000, 1/10000, 1/10000, 1/10000, 1/10000, 1/10000, 1/10000, 1/10000, 1/10000, 1/10000, 1/10000] : List ℚ).getD
          (chromaMaxIdx (chromaOutOf [3/1000, 1/10000, 1/10000, 1/10000, 1/10000, 1/10000, 1/10000, 1/10000, 1/10000, 1/10000, 1/10000, 1/10000])) 0
        / (([3/1000, 1/10000, 1/10000, 1/10000, 1/10000, 1/10000, 1/10000, 1/10000, 1/10000, 1/10000, 1/10000, 1/10000] : List ℚ).foldl (· + ·) 0 / 12)
      > 3/2 := by
  have hout : chromaOutOf [3/1000, 1/10000, 1/10000, 1/10000, 1/10000, 1/10000, 1/10000, 1/10000, 1/10000, 1/10000, 1/10000, 1/10000]
      = [255, 8, 8, 8, 8, 8, 8, 8, 8, 8, 8, 8] := by
    norm_num [chromaOutOf, Int.toNat_ofNat]
    decide
  have hidx : chromaMaxIdx [255, 8, 8, 8, 8, 8, 8, 8, 8, 8, 8, 8] = 0 := by
    decide
  have hsum : ([3/1000, 1/10000, 1/10000, 1/10000, 1/10000, 1/10000, 1/10000, 1/10000, 1/10000, 1/10000, 1/10000, 1/10000] : List ℚ).foldl (· + ·) 0 = 41/10000 := by
    norm_num
  refine ⟨?_, ?_, ?_⟩
  · unfold calculateChromaDecision
    rw [hout, hsum]
    dsimp only
    rw [hidx]
    norm_num
  · rw [hout, hidx]
    norm_num
  · rw [hout, hidx, hsum]
    norm_num

/-- **C7 (amended)**: the argmax class is reported dominant iff its
normalized 8-bit value exceeds 30 AND the mean of the smoothed chroma clears
the divide-by-zero floor `0.001` AND `peakRatio = smoothed[argmax]/mean`
exceeds 1.5, with strength `min 255 ⌊(peakRatio−1)·100⌋`; otherwise the
sentinel (255, 0).  Conjunct 1 certifies the argmax. -/
theorem claim_C7_amended (smoothed : List ℚ) :
    (chromaMaxIdx (chromaOutOf smoothed) < 12
      ∧ ∀ j, j < 12 →
        (chromaOutOf smoothed).getD j 0
          ≤ (chromaOutOf smoothed).getD (chromaMaxIdx (chromaOutOf smoothed)) 0)
    ∧ calculateChromaDecision smoothed
      = if (chromaOutOf smoothed).getD (chromaMaxIdx (chromaOutOf smoothed)) 0 > 30
            ∧ smoothed.foldl (· + ·) 0 / 12 > 1/1000
            ∧ smoothed.getD (chromaMaxIdx (chromaOutOf smoothed)) 0
                / (smoothed.foldl (· + ·) 0 / 12) > 3/2
        then (chromaMaxIdx (chromaOutOf smoothed),
              min 255 (Int.toNat ⌊(smoothed.getD (chromaMaxIdx (chromaOutOf smoothed)) 0
                / (smoothed.foldl (· + ·) 0 / 12) - 1) * 100⌋))
        else (255, 0) := by
  refine ⟨chromaMaxIdx_spec (chromaOutOf smoothed), ?_⟩
  unfold calculateChromaDecision
  dsimp only
  by_cases havg : smoothed.foldl (· + ·) 0 / 12 > 1/1000
  · rw [if_pos havg]
    by_cases hout : (chromaOutOf smoothed).getD (chromaMaxIdx (chromaOutOf smoothed)) 0 > 30
    · by_cases hratio : smoothed.getD (chromaMaxIdx (chromaOutOf smoothed)) 0
          / (smoothed.foldl (· + ·) 0 / 12) > 3/2
      · rw [if_pos ⟨hout, hratio⟩, if_pos ⟨hout, havg, hratio⟩]
      · rw [if_neg (fun h => hratio h.2), if_neg (fun h => hratio h.2.2)]
    · rw [if_neg (fun h => hout h.1), if_neg (fun h => hout h.1)]
  · rw [if_neg havg]
    rw [if_neg (by
      rintro ⟨_, h⟩
      norm_num at h), if_neg (fun h => havg h.2.1)]

/-! ## C8 theorems -/

/-- **C8 counterexample**: the claim as stated fails at the refractory
boundary.  With the last onset at 0 ms and the current tick at 80 ms, exactly
the minimum refractory interval (80 ms) has elapsed — "at least the interval
has elapsed" holds — and the envelope and slope conditions hold, yet the code
requires `now - lastSyllableMs > 80` strictly and asserts no onset. -/
theorem claim_C8_counterexample :
    (vocalOnsetStep ⟨2/5, 0⟩ (1/2) 80).2 = false
    ∧ (1/2 : ℚ) > VOCAL_HIT_THRESH
    ∧ (1/2 : ℚ) - (2/5 : ℚ) > VOCAL_HIT_SLOPE
    ∧ VOCAL_MIN_GAP_MS ≤ 80 - 0 := by
  refine ⟨?_, by norm_num [VOCAL_HIT_THRESH], by norm_num [VOCAL_HIT_SLOPE],
    by norm_num [VOCAL_MIN_GAP_MS]⟩
  simp only [vocalOnsetStep]
  norm_num [VOCAL_HIT_THRESH, VOCAL_HIT_SLOPE, VOCAL_MIN_GAP_MS]

/-- **C8 (amended)**: an onset is asserted iff the smoothed envelope exceeds
the absolute threshold AND its frame-to-frame delta exceeds the slope
threshold AND strictly more than the 80 ms refractory interval has elapsed
since the last onset; and over any run of samples, two onsets are never
asserted 80 ms or less apart (so at most one onset until the refractory
interval has passed). -/
theorem claim_C8_amended :
    (∀ (st : VocalOnsetState) (env : ℚ) (now : Nat),
      (vocalOnsetStep st env now).2 = true
        ↔ env > VOCAL_HIT_THRESH ∧ env - st.vocalEnvPrev > VOCAL_HIT_SLOPE
            ∧ now - st.lastSyllableMs > VOCAL_MIN_GAP_MS)
    ∧ (∀ (st : VocalOnsetState) (samples : List (Nat × ℚ)),
        (∀ t ∈ vocalOnsetHits st samples, st.lastSyllableMs + VOCAL_MIN_GAP_MS < t)
        ∧ (vocalOnsetHits st samples).Pairwise
            (fun a b => a + VOCAL_MIN_GAP_MS < b)) := by
  constructor
  · intro st env now
    simp only [vocalOnsetStep, Bool.and_eq_true, decide_eq_true_eq]
    tauto
  · intro st samples
    induction samples generalizing st with
    | nil =>
      exact ⟨by simp [vocalOnsetHits], by simp [vocalOnsetHits]⟩
    | cons sample rest ih =>
      obtain ⟨now, env⟩ := sample
      by_cases hcond : env > VOCAL_HIT_THRESH
          ∧ env - st.vocalEnvPrev > VOCAL_HIT_SLOPE
          ∧ now - st.lastSyllableMs > VOCAL_MIN_GAP_MS
      · have hb : (decide (env > VOCAL_HIT_THRESH)
            && decide (env - st.vocalEnvPrev > VOCAL_HIT_SLOPE)
            && decide (now - st.lastSyllableMs > VOCAL_MIN_GAP_MS)) = true := by
          simp [hcond.1, hcond.2.1, hcond.2.2]
        have hlist : vocalOnsetHits st ((now, env) :: rest)
            = now :: vocalOnsetHits ⟨env, now⟩ rest := by
          simp only [vocalOnsetHits, vocalOnsetStep, hb, if_true, List.singleton_append]
        obtain ⟨ih1, ih2⟩ := ih ⟨env, now⟩
        have hgap : st.lastSyllableMs + VOCAL_MIN_GAP_MS < now := by
          have := hcond.2.2
          simp only [VOCAL_MIN_GAP_MS] at this ⊢
          omega
        rw [hlist]
        constructor
        · intro u hu
          rcases List.mem_cons.mp hu with h | h
          · omega
          · have := ih1 u h
            simp only [VOCAL_MIN_GAP_MS] at this ⊢
            omega
        · rw [List.pairwise_cons]
          exact ⟨fun u hu => ih1 u hu, ih2⟩
      · have hb : (decide (env > VOCAL_HIT_THRESH)
            && decide (env - st.vocalEnvPrev > VOCAL_HIT_SLOPE)
            && decide (now - st.lastSyllableMs > VOCAL_MIN_GAP_MS)) = false := by
          rcases Bool.eq_false_or_eq_true (decide (env > VOCAL_HIT_THRESH)
              && decide (env - st.vocalEnvPrev > VOCAL_HIT_SLOPE)
              && decide (now - st.lastSyllableMs > VOCAL_MIN_GAP_MS)) with h | h
          · simp only [Bool.and_eq_true, decide_eq_true_eq] at h
            exact absurd ⟨h.1.1, h.1.2, h.2⟩ hcond
          · exact h
        have hlist : vocalOnsetHits st ((now, env) :: rest)
            = vocalOnsetHits ⟨env, st.lastSyllableMs⟩ rest := by
          simp only [vocalOnsetHits, vocalOnsetStep, hb,
            Bool.false_eq_true, if_false, List.nil_append]
        obtain ⟨ih1, ih2⟩ := ih ⟨env, st.lastSyllableMs⟩
        rw [hlist]
        exact ⟨fun u hu => ih1 u hu, ih2⟩

/-! ## C6 / C10 theorems -/

/-- The silence-gate Boolean agrees with "some band exceeds the threshold". -/
theorem hasSignal_iff (st : FftNodeState) :
    ((List.range st.activeBands).any fun i =>
        decide (st.smoothedBandAmplitude.getD i 0 > SILENCE_EPS)) = true
      ↔ ∃ i, i < st.activeBands
          ∧ st.smoothedBandAmplitude.getD i 0 > SILENCE_EPS := by
  rw [List.any_eq_true]
  constructor
  · rintro ⟨i, hi, hp⟩
    exact ⟨i, List.mem_range.mp hi, of_decide_eq_true hp⟩
  · rintro ⟨i, hi, hp⟩
    exact ⟨i, List.mem_range.mpr hi, decide_eq_true hp⟩

/-- **C6**: on a tick, a FEATURE frame is emitted iff some smoothed band
amplitude exceeds `1e-8`; in silence nothing is written and only the
`wasTransmitting` latch changes — the band/vocal/chroma snapshot and the
sequence counters are untouched; and a COMMAND frame is encoded and written
immediately for every received command, independent of the silence gate. -/
theorem claim_C6_silenceGate (st : FftNodeState) (cmd : Option (Nat × Nat × Nat)) :
    ((sendFftFrame st).2 ≠ []
      ↔ ∃ i, i < st.activeBands
          ∧ st.smoothedBandAmplitude.getD i 0 > SILENCE_EPS)
    ∧ ((∀ i, i < st.activeBands → st.smoothedBandAmplitude.getD i 0 ≤ SILENCE_EPS) →
        (sendFftFrame st).2 = []
        ∧ (sendFftFrame st).1 = { st with wasTransmitting := false })
    ∧ ((∃ i, i < st.activeBands ∧ st.smoothedBandAmplitude.getD i 0 > SILENCE_EPS) →
        (sendFftFrame st).2 = [(TYPE_FFT, st.fftSeq), (TYPE_AUX, st.auxSeq)])
    ∧ (∀ c, cmd = some c →
        (forwardESP32Commands st cmd).2 = [(TYPE_CMD, st.cmdSeq)]) := by
  by_cases hsig : ∃ i, i < st.activeBands
      ∧ st.smoothedBandAmplitude.getD i 0 > SILENCE_EPS
  · have hb := (hasSignal_iff st).mpr hsig
    have hframes : (sendFftFrame st).2
        = [(TYPE_FFT, st.fftSeq), (TYPE_AUX, st.auxSeq)] := by
      unfold sendFftFrame
      rw [if_neg (by rw [hb]; simp)]
    refine ⟨by rw [hframes]; simpa using hsig, ?_, fun _ => hframes, ?_⟩
    · intro hall
      obtain ⟨i, hi, hp⟩ := hsig
      exact absurd (hall i hi) (not_le.mpr hp)
    · intro c hc
      subst hc
      obtain ⟨m, pt, br⟩ := c
      unfold forwardESP32Commands
      dsimp only
      by_cases hm : m = MODE_MUSIC ∧ st.activeBands ≠ 12
      · rw [if_pos hm]
      · rw [if_neg hm]
  · have hb : ((List.range st.activeBands).any fun i =>
        decide (st.smoothedBandAmplitude.getD i 0 > SILENCE_EPS)) = false := by
      rcases Bool.eq_false_or_eq_true ((List.range st.activeBands).any fun i =>
          decide (st.smoothedBandAmplitude.getD i 0 > SILENCE_EPS)) with h | h
      · exact absurd ((hasSignal_iff st).mp h) hsig
      · exact h
    have hout : sendFftFrame st = ({ st with wasTransmitting := false }, []) := by
      unfold sendFftFrame
      rw [if_pos hb]
    refine ⟨by rw [hout]; simpa using hsig, fun _ => by rw [hout]; exact ⟨rfl, rfl⟩,
      fun h => absurd h hsig, ?_⟩
    intro c hc
    subst hc
    obtain ⟨m, pt, br⟩ := c
    unfold forwardESP32Commands
    dsimp only
    by_cases hm : m = MODE_MUSIC ∧ st.activeBands ≠ 12
    · rw [if_pos hm]
    · rw [if_neg hm]

/-- Witness for C6 at an all-silent 12-band state with a pending command:
FEATURE suppressed, state latched, COMMAND still emitted. -/
theorem claim_C6_silenceGate_witness :
    (sendFftFrame ⟨List.replicate 12 0, 12, List.replicate 12 0, 255, 0,
        0, 0, 255, 0, 0, true, 4, 5, 6⟩).2 = []
    ∧ (sendFftFrame ⟨List.replicate 12 0, 12, List.replicate 12 0, 255, 0,
        0, 0, 255, 0, 0, true, 4, 5, 6⟩).1
      = { (⟨List.replicate 12 0, 12, List.replicate 12 0, 255, 0,
          0, 0, 255, 0, 0, true, 4, 5, 6⟩ : FftNodeState) with wasTransmitting := false }
    ∧ (forwardESP32Commands ⟨List.replicate 12 0, 12, List.replicate 12 0, 255, 0,
        0, 0, 255, 0, 0, true, 4, 5, 6⟩ (some (77, 2, 30))).2 = [(TYPE_CMD, 5)] := by
  have h := claim_C6_silenceGate
    ⟨List.replicate 12 0, 12, List.replicate 12 0, 255, 0,
      0, 0, 255, 0, 0, true, 4, 5, 6⟩ (some (77, 2, 30))
  have hsil := h.2.1 (by
    intro i _
    have : (List.replicate 12 (0 : ℚ)).getD i 0 = 0 := by
      rcases Nat.lt_or_ge i 12 with hi | hi
      · rw [List.getD_eq_getElem?_getD, List.getElem?_eq_getElem (by simpa using hi),
          List.getElem_replicate]
        rfl
      · rw [List.getD_eq_getElem?_getD, List.getElem?_eq_none (by simpa using hi)]
        rfl
    rw [this]
    norm_num [SILENCE_EPS])
  exact ⟨hsil.1, hsil.2, h.2.2.2 (77, 2, 30) rfl⟩

/-- **C10**: an AUX frame is emitted in a loop iteration iff the iteration
is on a tick boundary and the silence gate passes (`sendAuxFrame` is called
only at the end of `sendFftFrame`); when the gate suppresses the FEATURE
frame, no AUX frame is sent either, and whenever an AUX frame is emitted the
FEATURE frame of the same tick is emitted with it. -/
theorem claim_C10_auxGated (st : FftNodeState) (cmd : Option (Nat × Nat × Nat))
    (tick : Bool) :
    ((∃ q, (TYPE_AUX, q) ∈ (fftLoopIteration st cmd tick).2)
      ↔ tick = true
        ∧ ∃ i, i < (forwardESP32Commands st cmd).1.activeBands
            ∧ (forwardESP32Commands st cmd).1.smoothedBandAmplitude.getD i 0
              > SILENCE_EPS)
    ∧ ((∃ q, (TYPE_AUX, q) ∈ (fftLoopIteration st cmd tick).2) →
        (TYPE_FFT, (forwardESP32Commands st cmd).1.fftSeq)
          ∈ (fftLoopIteration st cmd tick).2) := by
  have hcmdshape : (forwardESP32Commands st cmd).2 = []
      ∨ ∃ c, (forwardESP32Commands st cmd).2 = [(TYPE_CMD, c)] := by
    rcases cmd with _ | ⟨m, pt, br⟩
    · exact Or.inl rfl
    · right
      unfold forwardESP32Commands
      dsimp only
      by_cases hm : m = MODE_MUSIC ∧ st.activeBands ≠ 12
      · rw [if_pos hm]
        exact ⟨_, rfl⟩
      · rw [if_neg hm]
        exact ⟨_, rfl⟩
  have hnoaux : ∀ q, (TYPE_AUX, q) ∉ (forwardESP32Commands st cmd).2 := by
    intro q hq
    rcases hcmdshape with h | ⟨c, h⟩
    · rw [h] at hq
      simp at hq
    · rw [h] at hq
      simp only [List.mem_singleton, Prod.mk.injEq] at hq
      exact absurd hq.1 (by decide)
  unfold fftLoopIteration
  dsimp only
  cases tick with
  | false =>
    rw [if_neg (by simp)]
    dsimp only
    constructor
    · constructor
      · rintro ⟨q, hq⟩
        rw [List.append_nil] at hq
        exact absurd hq (hnoaux q)
      · rintro ⟨h, _⟩
        exact absurd h (by simp)
    · rintro ⟨q, hq⟩
      rw [List.append_nil] at hq
      exact absurd hq (hnoaux q)
  | true =>
    rw [if_pos rfl]
    by_cases hsig : ∃ i, i < (forwardESP32Commands st cmd).1.activeBands
        ∧ (forwardESP32Commands st cmd).1.smoothedBandAmplitude.getD i 0 > SILENCE_EPS
    · have hframes : (sendFftFrame (forwardESP32Commands st cmd).1).2
          = [(TYPE_FFT, (forwardESP32Commands st cmd).1.fftSeq),
             (TYPE_AUX, (forwardESP32Commands st cmd).1.auxSeq)] := by
        unfold sendFftFrame
        rw [if_neg (by rw [(hasSignal_iff _).mpr hsig]; simp)]
      rw [hframes]
      constructor
      · constructor
        · intro _
          exact ⟨rfl, hsig⟩
        · intro _
          exact ⟨(forwardESP32Commands st cmd).1.auxSeq, by simp⟩
      · intro _
        simp
    · have hb : ((List.range (forwardESP32Commands st cmd).1.activeBands).any fun i =>
          decide ((forwardESP32Commands st cmd).1.smoothedBandAmplitude.getD i 0
            > SILENCE_EPS)) = false := by
        rcases Bool.eq_false_or_eq_true ((List.range (forwardESP32Commands st cmd).1.activeBands).any
            fun i => decide ((forwardESP32Commands st cmd).1.smoothedBandAmplitude.getD i 0
              > SILENCE_EPS)) with h | h
        · exact absurd ((hasSignal_iff _).mp h) hsig
        · exact h
      have hframes : (sendFftFrame (forwardESP32Commands st cmd).1).2 = [] := by
        unfold sendFftFrame
        rw [if_pos hb]
      rw [hframes]
      constructor
      · constructor
        · rintro ⟨q, hq⟩
          rw [List.append_nil] at hq
          exact absurd hq (hnoaux q)
        · rintro ⟨_, h⟩
          exact absurd h hsig
      · rintro ⟨q, hq⟩
        rw [List.append_nil] at hq
        exact absurd hq (hnoaux q)

/-- Witness for C10: silent state on a tick — no AUX (and no FEATURE) frame. -/
theorem claim_C10_auxGated_witness :
    ¬ ∃ q, (TYPE_AUX, q) ∈ (fftLoopIteration
        ⟨List.replicate 12 0, 12, List.replicate 12 0, 255, 0,
          0, 0, 255, 0, 0, true, 4, 5, 6⟩ none true).2 := by
  intro hq
  have h := (claim_C10_auxGated
      ⟨List.replicate 12 0, 12, List.replicate 12 0, 255, 0,
        0, 0, 255, 0, 0, true, 4, 5, 6⟩ none true).1.mp hq
  obtain ⟨_, i, hi, hp⟩ := h
  have hz : (List.replicate 12 (0 : ℚ)).getD i 0 = 0 := by
    rcases Nat.lt_or_ge i 12 with hlt | hge
    · rw [List.getD_eq_getElem?_getD, List.getElem?_eq_getElem (by simpa using hlt),
        List.getElem_replicate]
      rfl
    · rw [List.getD_eq_getElem?_getD, List.getElem?_eq_none (by simpa using hge)]
      rfl
  have hp2 : (List.replicate 12 (0 : ℚ)).getD i 0 > SILENCE_EPS := hp
  rw [hz] at hp2
  norm_num [SILENCE_EPS] at hp2

/-- Witness for C7 (amended) at a concrete chroma vector. -/
theorem claim_C7_amended_witness :
    (chromaOutOf [3/1000, 1/10000, 1/10000, 1/10000, 1/10000, 1/10000, 1/10000, 1/10000, 1/10000, 1/10000, 1/10000, 1/10000]).getD 3 0
      ≤ (chromaOutOf [3/1000, 1/10000, 1/10000, 1/10000, 1/10000, 1/10000, 1/10000, 1/10000, 1/10000, 1/10000, 1/10000, 1/10000]).getD
          (chromaMaxIdx (chromaOutOf [3/1000, 1/10000, 1/10000, 1/10000, 1/10000, 1/10000, 1/10000, 1/10000, 1/10000, 1/10000, 1/10000, 1/10000])) 0 :=
  (claim_C7_amended [3/1000, 1/10000, 1/10000, 1/10000, 1/10000, 1/10000, 1/10000, 1/10000, 1/10000, 1/10000, 1/10000, 1/10000]).1.2 3 (by norm_num)

/-- Witness for C8 (amended) at a concrete sample. -/
theorem claim_C8_amended_witness :
    (vocalOnsetStep ⟨0, 0⟩ (1/2) 100).2 = true
      ↔ (1/2 : ℚ) > VOCAL_HIT_THRESH
          ∧ (1/2 : ℚ) - (⟨0, 0⟩ : VocalOnsetState).vocalEnvPrev > VOCAL_HIT_SLOPE
          ∧ 100 - (⟨0, 0⟩ : VocalOnsetState).lastSyllableMs > VOCAL_MIN_GAP_MS :=
  claim_C8_amended.1 ⟨0, 0⟩ (1/2) 100

end OneManRave
